import Mathlib

/-!
Verification development for the Antigravity proxy gateway
(credential pool, cooldown registry, request translator, stream emitter,
token estimator).  Each JavaScript function of the sources is shallowly
embedded as an executable Lean definition; machine numbers are modelled
as `Int`/`Nat`/`Rat`, JS objects as structures, `Map`s as association
lists, and the network as explicit outcome parameters.
-/

/-! ## JS string helpers (List-Char based so the kernel can evaluate them) -/

/-- Character-list version of JS `String.prototype.startsWith`. -/
def listStartsWith : List Char → List Char → Bool
  | [], _ => true
  | _ :: _, [] => false
  | a :: as, b :: bs => a == b && listStartsWith as bs

/-- JS `s.startsWith(pat)`. -/
def jsStartsWith (s pat : String) : Bool :=
  listStartsWith pat.toList s.toList

/-- JS `s.endsWith(pat)`. -/
def jsEndsWith (s pat : String) : Bool :=
  listStartsWith pat.toList.reverse s.toList.reverse

/-- Character-list substring search used by `jsIncludes`. -/
def listHasSub (pat : List Char) : List Char → Bool
  | [] => listStartsWith pat []
  | c :: rest' =>
    listStartsWith pat (c :: rest') || listHasSub pat rest'

/-- JS `s.includes(pat)`. -/
def jsIncludes (s pat : String) : Bool :=
  listHasSub pat.toList s.toList

/-- JS `s.trim()` (whitespace stripped from both ends). -/
def jsTrim (s : String) : String :=
  String.mk (((s.toList.dropWhile Char.isWhitespace).reverse.dropWhile
    Char.isWhitespace).reverse)

/-! ## Token estimator (logger.js, `estimateTokensFromText`) -/

/-- `estimateTokensFromText(text)`: `if (!text) return 0;` then
`Math.max(1, Math.ceil(text.length / 4))`. -/
def estimateTokensFromText (text : String) : Nat :=
  if text.isEmpty then 0
  else max 1 (Nat.ceil ((text.length : ℚ) / 4))

/-! ## Credential store (token_manager.js) -/

/-- One credential of `accounts.json` / the in-memory pool.  Optional JS
fields are `Option`; `enable` is `none` when the key is absent. -/
structure Token where
  refreshToken : String
  accessToken : Option String
  expiresIn : Option Int
  timestampMs : Option Int
  projectId : Option String
  enable : Option Bool
  disabledModels : List String
  sessionId : Option String
deriving DecidableEq

/-- The persisted form of a credential: `const (sessionId, ...rest) = memToken`. -/
def stripSession (t : Token) : Token :=
  { t with sessionId := none }

/-- One pass of the `saveToFile` merge loop: replace the first on-disk
entry with the same `refresh_token` by the session-stripped memory token;
if no entry matches, the array is left unchanged (`findIndex === -1`). -/
def saveMergeStep : List Token → Token → List Token
  | [], _ => []
  | t :: ts, mem =>
    if t.refreshToken == mem.refreshToken then stripSession mem :: ts
    else t :: saveMergeStep ts mem

/-- `TokenManager.saveToFile`: re-read the on-disk array and overwrite the
entries whose `refresh_token` appears in memory (`this.tokens.forEach`). -/
def saveToFile (diskTokens : List Token) (memTokens : List Token) : List Token :=
  memTokens.foldl saveMergeStep diskTokens

/-! ## Cooldown registry (model_cooldown_manager.js) -/

/-- Quota snapshot for one model, as returned by `getModelsWithQuotas`:
`remaining` is the fraction of the allotment left (JS number → `ℚ`). -/
structure QuotaEntry where
  remaining : ℚ
deriving DecidableEq

/-- One in-memory cooldown record (value of `cooldownMap`).  `resetTime`
denotes the same instant as `resetTimestamp`, so a single `Int` field
(epoch milliseconds) stands for both; `createdAt` is kept as the creation
instant. -/
structure CdRecord where
  projectId : String
  model : String
  resetTimestamp : Int
  reason : String
  createdAt : Int
deriving DecidableEq

/-- The manager state: `cooldownMap` (insertion-ordered `Map` keyed by
`"projectId:model"`) and `timerMap` (the set of keys holding a pending
auto-removal timer). -/
structure CdState where
  cooldownMap : List (String × CdRecord)
  timerMap : List String
deriving DecidableEq

/-- `Map.get` on the association list. -/
def alistGet (k : String) (l : List (String × CdRecord)) : Option CdRecord :=
  match l.find? (fun p => p.1 == k) with
  | some p => some p.2
  | none => none

/-- `Map.set` on the association list (update in place, append if new). -/
def alistSet (k : String) (v : CdRecord) : List (String × CdRecord) → List (String × CdRecord)
  | [] => [(k, v)]
  | (k', v') :: rest =>
    if k' == k then (k, v) :: rest else (k', v') :: alistSet k v rest

/-- `Map.delete` on the association list. -/
def alistDelete (k : String) : List (String × CdRecord) → List (String × CdRecord)
  | [] => []
  | (k', v') :: rest => if k' == k then rest else (k', v') :: alistDelete k rest

/-- `buildKey(projectId, model)` = `` `${projectId}:${model}` ``. -/
def buildKey (projectId model : String) : String :=
  projectId ++ ":" ++ model

/-- The static `MODEL_GROUPS` table. -/
def MODEL_GROUPS : List (String × List String) := [
  ("Claude/GPT", ["claude-sonnet-4-5-thinking", "claude-opus-4-5-thinking",
    "claude-sonnet-4-5", "gpt-oss-120b-medium"]),
  ("Tab补全", ["chat_23310", "chat_20706"]),
  ("香蕉绘图", ["gemini-2.5-flash-image"]),
  ("香蕉Pro", ["gemini-3-pro-image"]),
  ("Gemini其他", ["gemini-3-pro-high", "rev19-uic3-1p", "gemini-2.5-flash",
    "gemini-3-pro-low", "gemini-2.5-flash-thinking", "gemini-2.5-pro",
    "gemini-2.5-flash-lite"])]

/-- `getModelGroup(model)`: first group whose member list contains it. -/
def getModelGroup (model : String) : Option String :=
  match MODEL_GROUPS.find? (fun g => g.2.contains model) with
  | some g => some g.1
  | none => none

/-- `getModelsInGroup(group)`. -/
def getModelsInGroup (group : String) : List String :=
  match MODEL_GROUPS.find? (fun g => g.1 == group) with
  | some g => g.2
  | none => []

/-- `setCooldownInternal`: clear any existing timer for the key, store the
record, then either arm a timer (`delayMs > 0`) or — the deadline being
already past — delete the record again and arm nothing.  File persistence
(`shouldSave`) is outside the in-memory state modelled here. -/
def setCooldownInternal (now : Int) (st : CdState) (projectId model : String)
    (resetTimestamp : Int) (reason : String) : CdState :=
  let key := buildKey projectId model
  let timers1 := st.timerMap.filter (fun k => !(k == key))
  let map1 := alistSet key
    ⟨projectId, model, resetTimestamp, reason, now⟩ st.cooldownMap
  let delayMs := resetTimestamp - now
  if delayMs > 0 then ⟨map1, key :: timers1⟩
  else ⟨alistDelete key map1, timers1⟩

/-- `removeCooldown`: drop the timer and the record. -/
def removeCooldown (st : CdState) (projectId model : String) : CdState :=
  let key := buildKey projectId model
  ⟨alistDelete key st.cooldownMap, st.timerMap.filter (fun k => !(k == key))⟩

/-- `isOnCooldown`: true iff a record exists whose reset instant is still
in the future; an expired record is evicted on the way (the returned state
is the possibly-evicted one). -/
def isOnCooldown (now : Int) (st : CdState) (projectId model : String) :
    Bool × CdState :=
  match alistGet (buildKey projectId model) st.cooldownMap with
  | none => (false, st)
  | some info =>
    if info.resetTimestamp ≤ now then (false, removeCooldown st projectId model)
    else (true, st)

/-- Outcome of the `getModelsWithQuotas` call inside `setCooldown`:
`none` models the call throwing, `some q` gives per-model quota objects. -/
def QuotaFetch : Type := Option (String → Option QuotaEntry)

/-- `setCooldown` (the registry's `put`): when the model belongs to a
group and a credential is supplied, consult live quota; average remaining
above 1 % cools only this pair, otherwise the whole group with identical
`resetTimestamp`; a failed fetch also cools only this pair. -/
def setCooldown (quotaFetch : QuotaFetch) (now : Int) (st : CdState)
    (projectId model : String) (resetTimestamp : Int) (reason : String)
    (tokenOpt : Option Token) : CdState :=
  match getModelGroup model, tokenOpt with
  | some group, some _ =>
    (match quotaFetch with
     | none => setCooldownInternal now st projectId model resetTimestamp reason
     | some quotas =>
       let groupModels := getModelsInGroup group
       let present := groupModels.filterMap quotas
       let totalRemaining := (present.map QuotaEntry.remaining).sum
       let cnt := present.length
       let avgRemaining : ℚ := if cnt > 0 then totalRemaining / (cnt : ℚ) else 0
       if avgRemaining > 1/100 then
         setCooldownInternal now st projectId model resetTimestamp reason
       else
         groupModels.foldl
           (fun s m => setCooldownInternal now s projectId m resetTimestamp reason) st)
  | _, _ => setCooldownInternal now st projectId model resetTimestamp reason

/-! ## Credential selector (token_manager.js) -/

/-- JS truthiness of an optional numeric field (`!token.timestamp`). -/
def optIntFalsy : Option Int → Bool
  | none => true
  | some v => v == 0

/-- `TokenManager.isExpired`: missing/zero `timestamp` or `expires_in`
means expired; otherwise expired from five minutes before
`timestamp + expires_in*1000`. -/
def isExpired (now : Int) (t : Token) : Bool :=
  if optIntFalsy t.timestampMs || optIntFalsy t.expiresIn then true
  else decide ((t.timestampMs.getD 0 + t.expiresIn.getD 0 * 1000) - 300000 ≤ now)

/-- In-place field update a successful OAuth refresh performs on the
credential (`access_token`, `expires_in`, `timestamp = Date.now()`). -/
def applyRefresh (now : Int) (t : Token) (accessToken : String)
    (expiresIn : Int) : Token :=
  { t with accessToken := some accessToken, expiresIn := some expiresIn,
           timestampMs := some now }

/-- Outcome of the OAuth refresh call. -/
inductive RefreshOut where
  | ok (accessToken : String) (expiresIn : Int)
  | httpErr (status : Option Nat)
deriving DecidableEq

/-- Outcome of the project-discovery call: `ok none` is a response without
`cloudaicompanionProject`, `err` a thrown error. -/
inductive FetchOut where
  | ok (pid : Option String)
  | err
deriving DecidableEq

/-- The environment of one `getToken` run: clock, config and the network
responses each credential would receive. -/
structure SelEnv where
  now : Int
  hourlyLimit : Nat
  usageCount : Option String → Nat
  refreshOut : Token → RefreshOut
  fetchOut : Token → FetchOut
  skipProjectIdFetch : Bool
  genProjectId : String

/-- The selector's mutable state: the in-memory pool and `currentIndex`. -/
structure SelState where
  tokens : List Token
  currentIndex : Nat
deriving DecidableEq

/-- `TokenManager.isModelDisabled`. -/
def isModelDisabled (t : Token) (modelName : String) : Bool :=
  if modelName.isEmpty then false else t.disabledModels.contains modelName

/-- `TokenManager.isWithinHourlyLimit`: a zero limit disables the check;
otherwise usage in the last hour must be below the limit. -/
def isWithinHourlyLimit (env : SelEnv) (t : Token) : Bool :=
  if env.hourlyLimit == 0 then true
  else decide (env.usageCount t.projectId < env.hourlyLimit)

/-- `TokenManager.moveToNextToken`. -/
def moveToNextToken (st : SelState) : SelState :=
  if st.tokens.length == 0 then { st with currentIndex := 0 }
  else { st with currentIndex := (st.currentIndex + 1) % st.tokens.length }

/-- `TokenManager.disableToken`: the credential is removed from the
in-memory list and `currentIndex` reduced modulo the new size (the
persisted `enable=false` write is outside this state). -/
def disableToken (st : SelState) (t : Token) : SelState :=
  let tokens' := st.tokens.filter (fun x => !(x.refreshToken == t.refreshToken))
  { tokens := tokens', currentIndex := st.currentIndex % max tokens'.length 1 }

/-- The project-id and hourly-limit steps of one `getToken` iteration.
`Sum.inl` is a final answer, `Sum.inr st'` means `attempts += 1; continue`
with the updated state. -/
def getTokenProjectStep (env : SelEnv) (st : SelState) (token : Token) :
    Sum (Option Token × SelState) SelState :=
  let hourly : SelState → Token → Sum (Option Token × SelState) SelState :=
    fun st' tok =>
      if !(isWithinHourlyLimit env tok) then Sum.inr (moveToNextToken st')
      else Sum.inl (some tok, st')
  if token.projectId.isNone then
    if env.skipProjectIdFetch then
      let token' := { token with projectId := some env.genProjectId }
      let st' := { st with tokens := st.tokens.set st.currentIndex token' }
      hourly st' token'
    else
      match env.fetchOut token with
      | FetchOut.ok none =>
        let st' := disableToken st token
        if st'.tokens.length == 0 then Sum.inl (none, st') else Sum.inr st'
      | FetchOut.ok (some pid) =>
        let token' := { token with projectId := some pid }
        let st' := { st with tokens := st.tokens.set st.currentIndex token' }
        hourly st' token'
      | FetchOut.err => Sum.inr (moveToNextToken st)
  else hourly st token

/-- The `while (attempts < totalTokens)` loop of `TokenManager.getToken`;
`fuel` is the number of attempts still allowed. -/
def getTokenGo (env : SelEnv) (effModel : Option String) :
    SelState → Nat → Option Token × SelState
  | st, 0 => (none, st)
  | st, Nat.succ fuel =>
    match st.tokens.get? st.currentIndex with
    | none => (none, st)
    | some token =>
      if (match effModel with
          | some m => isModelDisabled token m
          | none => false) then
        getTokenGo env effModel (moveToNextToken st) fuel
      else if isExpired env.now token then
        match env.refreshOut token with
        | RefreshOut.ok a e =>
          let token' := applyRefresh env.now token a e
          let st' : SelState :=
            { st with tokens := st.tokens.set st.currentIndex token' }
          (match getTokenProjectStep env st' token' with
           | Sum.inl r => r
           | Sum.inr st'' => getTokenGo env effModel st'' fuel)
        | RefreshOut.httpErr s =>
          if s == some 403 || s == some 400 then
            let st' := disableToken st token
            if st'.tokens.length == 0 then (none, st')
            else getTokenGo env effModel st' fuel
          else getTokenGo env effModel (moveToNextToken st) fuel
      else
        (match getTokenProjectStep env st token with
         | Sum.inl r => r
         | Sum.inr st'' => getTokenGo env effModel st'' fuel)

/-- `TokenManager.getToken(modelName)`: empty pool gives `null`; otherwise
run up to `tokens.length` attempts starting at `currentIndex`. -/
def getToken (env : SelEnv) (modelName : Option String) (st : SelState) :
    Option Token × SelState :=
  if st.tokens.length == 0 then (none, st)
  else
    let effModel := match modelName with
      | some s => (let tr := jsTrim s; if tr.isEmpty then none else some tr)
      | none => none
    getTokenGo env effModel st st.tokens.length

/-- JSON values; numbers are `ℚ` (JS doubles restricted to the exact
values the claims exercise). -/
inductive Json where
  | null
  | bool (b : Bool)
  | num (q : ℚ)
  | str (s : String)
  | arr (elems : List Json)
  | obj (fields : List (String × Json))

/-- Escape one character for `JSON.stringify` output. -/
def jsonEscapeChar (c : Char) : String :=
  if c == '"' then "\\\""
  else if c == '\\' then "\\\\"
  else if c == '\n' then "\\n"
  else if c == '\r' then "\\r"
  else if c == '\t' then "\\t"
  else String.singleton c

/-- Escape a string for `JSON.stringify` output. -/
def jsonEscape (s : String) : String :=
  String.join (s.toList.map jsonEscapeChar)

mutual

/-- `JSON.stringify` (number rendering restricted to integers, the only
numbers the embedded requests carry). -/
def jsonStringify : Json → String
  | Json.null => "null"
  | Json.bool true => "true"
  | Json.bool false => "false"
  | Json.num q => if q.den == 1 then toString q.num else toString q
  | Json.str s => "\"" ++ jsonEscape s ++ "\""
  | Json.arr xs =>
    "[" ++ String.intercalate "," (jsonStringifyList xs) ++ "]"
  | Json.obj fs =>
    "\x7b" ++ String.intercalate "," (jsonStringifyFields fs) ++ "\x7d"

/-- Stringify the elements of a JSON array. -/
def jsonStringifyList : List Json → List String
  | [] => []
  | x :: xs => jsonStringify x :: jsonStringifyList xs

/-- Stringify the `"key":value` members of a JSON object. -/
def jsonStringifyFields : List (String × Json) → List String
  | [] => []
  | (k, v) :: fs =>
    ("\"" ++ jsonEscape k ++ "\":" ++ jsonStringify v) :: jsonStringifyFields fs

end

/-! ## Tool-schema cleaning (logger.js, `cleanJsonSchema`) -/

/-- The keys of the `validationFields` map, in its iteration order; each
maps to its own name, hence the `"name: name"` annotations. -/
def validationFieldNames : List String :=
  ["minLength", "maxLength", "minimum", "maximum", "minItems", "maxItems",
   "minProperties", "maxProperties", "pattern", "format", "multipleOf"]

/-- The `fieldsToRemove` set. -/
def fieldsToRemoveNames : List String :=
  ["$schema", "additionalProperties", "uniqueItems", "exclusiveMinimum",
   "exclusiveMaximum"]

/-- Does the object carry the key? -/
def hasField (fields : List (String × Json)) (k : String) : Bool :=
  fields.any (fun p => p.1 == k)

/-- `collectValidations`: the annotation strings pushed while deleting
validation facets (`"field: field"` per present facet, in map order, plus
`"no additional properties"` when `additionalProperties === false`). -/
def collectValidations (fields : List (String × Json)) : List String :=
  (validationFieldNames.filter (hasField fields)).map (fun f => f ++ ": " ++ f)
  ++ (if (match fields.find? (fun p => p.1 == "additionalProperties") with
          | some (_, Json.bool false) => true
          | _ => false)
      then ["no additional properties"] else [])

/-- JS `` `${value || ''}` `` for a description value; non-string truthy
descriptions (never produced by the schemas in scope) collapse to "". -/
def descriptionText : Json → String
  | Json.str s => s
  | _ => ""

/-- Replace the value of a key in place (used for the `required` update). -/
def objSetField (k : String) (v : Json) :
    List (String × Json) → List (String × Json)
  | [] => []
  | (k', v') :: rest =>
    if k' == k then (k, v) :: rest else (k', v') :: objSetField k v rest

/-- Delete a key (used when `required` empties). -/
def objDeleteField (k : String) :
    List (String × Json) → List (String × Json)
  | [] => []
  | (k', v') :: rest =>
    if k' == k then rest else (k', v') :: objDeleteField k rest

/-- The `required`/`properties` intersection step at the end of
`cleanObject`; `properties` values that are not objects are treated as
key-less (the schemas in scope always use objects). -/
def filterRequired (cleaned : List (String × Json)) : List (String × Json) :=
  match cleaned.find? (fun p => p.1 == "required") with
  | some (_, Json.arr reqItems) =>
    let reqItems' :=
      match cleaned.find? (fun p => p.1 == "properties") with
      | some (_, Json.obj props) =>
        reqItems.filter (fun item =>
          match item with
          | Json.str s => props.any (fun pr => pr.1 == s)
          | _ => false)
      | _ => reqItems
    if reqItems'.isEmpty then objDeleteField "required" cleaned
    else objSetField "required" (Json.arr reqItems') cleaned
  | _ => cleaned

mutual

/-- `cleanObject(obj, path)`: arrays map the cleaner over their items,
objects strip facets (annotating the root description when one exists),
recurse into the remaining values and intersect `required` with
`properties`. -/
def cleanObject : Json → String → Json
  | Json.arr xs, path => Json.arr (cleanList xs path)
  | Json.obj fields, path =>
    let validations := collectValidations fields
    Json.obj (filterRequired (cleanFields fields validations path))
  | j, _ => j

/-- Clean the items of a schema array. -/
def cleanList : List Json → String → List Json
  | [], _ => []
  | x :: xs, path => cleanObject x path :: cleanList xs path

/-- Rebuild the fields of a schema object: deleted keys are skipped (the
two `continue` guards of the entry loop), the root description receives
the annotation list, every other value is cleaned recursively under the
extended path. -/
def cleanFields :
    List (String × Json) → List String → String → List (String × Json)
  | [], _, _ => []
  | (k, v) :: rest, validations, path =>
    if fieldsToRemoveNames.contains k || validationFieldNames.contains k then
      cleanFields rest validations path
    else if k == "description" && !validations.isEmpty && path == "" then
      (k, Json.str (jsTrim (descriptionText v ++ " (" ++
        String.intercalate ", " validations ++ ")"))) ::
        cleanFields rest validations path
    else
      (k, cleanObject v (path ++ "." ++ k)) :: cleanFields rest validations path

end

/-- `cleanJsonSchema(schema)`: non-objects pass through unchanged. -/
def cleanJsonSchema (schema : Json) : Json :=
  match schema with
  | Json.obj _ => cleanObject schema ""
  | Json.arr _ => cleanObject schema ""
  | j => j

/-! ## Request translator (logger.js, Claude → Gemini) -/

/-- `functionCall` payload of a part. -/
structure FunctionCall where
  id : String
  name : String
  args : Json

/-- The `response` object of a `functionResponse`: `{error: s}` or
`{result: s}`. -/
inductive FRResponse where
  | err (s : String)
  | res (s : String)

/-- `functionResponse` payload of a part. -/
structure FunctionResponse where
  id : String
  name : String
  response : FRResponse

/-- `inlineData` payload of a part. -/
structure InlineData where
  mimeType : String
  data : String

/-- A Gemini content part: a JS record whose absent fields are `none`
(`thought` is `false` when absent). -/
structure GeminiPart where
  text : Option String
  thought : Bool
  thoughtSignature : Option String
  inlineData : Option InlineData
  functionCall : Option FunctionCall
  functionResponse : Option FunctionResponse

/-- A part with every field absent. -/
def emptyPart : GeminiPart := ⟨none, false, none, none, none, none⟩

/-- The `source` of a client image block. -/
inductive ImgSource where
  | base64 (mediaType : Option String) (data : String)
  | url
  | otherSource

/-- One text fragment of an array-valued `tool_result` content
(`ty` is the fragment's `type`, `text` defaults to `""`). -/
structure TextFrag where
  ty : String
  text : String

/-- The `content` of a `tool_result` block. -/
inductive ToolResultContent where
  | strContent (s : String)
  | arrContent (items : List TextFrag)
  | objContent (j : Json)
  | noContent

/-- A client (Claude-schema) content block; a missing `signature` on a
thinking block is the empty string (both are JS-falsy). -/
inductive ClaudeBlock where
  | text (text : String)
  | image (source : ImgSource)
  | thinking (thinking : String) (signature : String)
  | redactedThinking
  | toolUse (id : String) (name : String) (input : Option Json)
  | toolResult (toolUseId : String) (content : ToolResultContent) (isError : Bool)
  | otherBlock (ty : String)

/-- A message `content`: string, block array, or anything else (which JS
renders with `String(content)`). -/
inductive ClaudeContent where
  | strContent (s : String)
  | blocks (bs : List ClaudeBlock)
  | otherContent (rendered : String)

/-- One client message. -/
structure ClaudeMessage where
  role : String
  content : ClaudeContent

/-- JS `x || d` on an optional string (empty string is falsy). -/
def jsStrOr (x : Option String) (d : String) : String :=
  match x with
  | some s => if s.isEmpty then d else s
  | none => d

/-- `contentStr` extraction for a `tool_result` block. -/
def toolResultContentStr : ToolResultContent → String
  | ToolResultContent.strContent s => s
  | ToolResultContent.arrContent items =>
    String.intercalate "\n"
      ((items.filter (fun i => i.ty == "text")).map TextFrag.text)
  | ToolResultContent.objContent j => jsonStringify j
  | ToolResultContent.noContent => ""

/-- First pass of `convertClaudeContentToGeminiParts` for one block: the
parts it pushes (URL images and unknown blocks push nothing). -/
def blockToParts : ClaudeBlock → List GeminiPart
  | ClaudeBlock.text t =>
    if t.isEmpty then [] else [{ emptyPart with text := some t }]
  | ClaudeBlock.image src =>
    (match src with
     | ImgSource.base64 mt data =>
       [{ emptyPart with inlineData := some ⟨jsStrOr mt "image/png", data⟩ }]
     | _ => [])
  | ClaudeBlock.thinking th _ =>
    if th.isEmpty then [] else [{ emptyPart with text := some th, thought := true }]
  | ClaudeBlock.redactedThinking =>
    [{ emptyPart with text := some "[思考内容已隐藏]", thought := true }]
  | ClaudeBlock.toolUse id name input =>
    [{ emptyPart with functionCall := some ⟨id, name, input.getD (Json.obj [])⟩ }]
  | ClaudeBlock.toolResult tid content isError =>
    [{ emptyPart with functionResponse := some ⟨tid, "",
        if isError then FRResponse.err (toolResultContentStr content)
        else FRResponse.res (toolResultContentStr content)⟩ }]
  | ClaudeBlock.otherBlock _ => []

/-- The first non-empty `signature` among the `thinking` blocks. -/
def firstSignature : List ClaudeBlock → String
  | [] => ""
  | ClaudeBlock.thinking _ sig :: rest =>
    if sig.isEmpty then firstSignature rest else sig
  | _ :: rest => firstSignature rest

/-- JS truthiness of `part.text`. -/
def partTextTruthy (p : GeminiPart) : Bool :=
  match p.text with
  | some s => !s.isEmpty
  | none => false

/-- Priority 1 of `applySignatureToParts`: the first `functionCall` part,
if any, receives the signature. -/
def applySigFirstFunctionCall (sig : String) : List GeminiPart → Option (List GeminiPart)
  | [] => none
  | p :: ps =>
    if p.functionCall.isSome then
      some ({ p with thoughtSignature := some sig } :: ps)
    else
      match applySigFirstFunctionCall sig ps with
      | some ps' => some (p :: ps')
      | none => none

/-- Priority 2: the last non-thought truthy-text part. -/
def applySigLastPlainText (sig : String) : List GeminiPart → Option (List GeminiPart)
  | [] => none
  | p :: ps =>
    match applySigLastPlainText sig ps with
    | some ps' => some (p :: ps')
    | none =>
      if partTextTruthy p && !p.thought then
        some ({ p with thoughtSignature := some sig } :: ps)
      else none

/-- Priority 3: the last thought part. -/
def applySigLastThought (sig : String) : List GeminiPart → Option (List GeminiPart)
  | [] => none
  | p :: ps =>
    match applySigLastThought sig ps with
    | some ps' => some (p :: ps')
    | none =>
      if p.thought then some ({ p with thoughtSignature := some sig } :: ps)
      else none

/-- `applySignatureToParts(parts, signature)`: place the signature on
exactly one part by the strict priority functionCall, then last plain
text, then last thought; no qualifying part leaves the list unchanged. -/
def applySignatureToParts (parts : List GeminiPart) (sig : String) : List GeminiPart :=
  match applySigFirstFunctionCall sig parts with
  | some l => l
  | none =>
    match applySigLastPlainText sig parts with
    | some l => l
    | none =>
      match applySigLastThought sig parts with
      | some l => l
      | none => parts

/-- `convertClaudeContentToGeminiParts(content)`. -/
def convertClaudeContentToGeminiParts : ClaudeContent → List GeminiPart
  | ClaudeContent.strContent s => [{ emptyPart with text := some s }]
  | ClaudeContent.otherContent r => [{ emptyPart with text := some r }]
  | ClaudeContent.blocks bs =>
    let parts := (bs.map blockToParts).flatten
    let thinkingSignature := firstSignature bs
    if thinkingSignature.isEmpty then parts
    else applySignatureToParts parts thinkingSignature

/-- One upstream content (role plus parts). -/
structure Content where
  role : String
  parts : List GeminiPart

/-- First matching `functionCall` name inside one content's parts. -/
def fcNameInParts (id : String) (parts : List GeminiPart) : Option String :=
  match parts.find? (fun p =>
    match p.functionCall with
    | some fc => fc.id == id
    | none => false) with
  | some p => some ((p.functionCall.map FunctionCall.name).getD "")
  | none => none

/-- The back-scan that resolves a `functionResponse` name: walk the prior
contents from the most recent one; a model turn with a matching
`functionCall` assigns its name, and the scan stops at the first
non-empty assignment (an empty name keeps scanning and may be
overwritten by an older turn). The argument is the reversed history. -/
def resolveFCNameGo (id : String) : List Content → String
  | [] => ""
  | c :: rest =>
    if c.role == "model" then
      match fcNameInParts id c.parts with
      | some nm => if nm.isEmpty then resolveFCNameGo id rest else nm
      | none => resolveFCNameGo id rest
    else resolveFCNameGo id rest

/-- Fill the empty `functionResponse` names of a user turn from the
history built so far. -/
def fillFunctionResponseNames (acc : List Content) (parts : List GeminiPart) :
    List GeminiPart :=
  parts.map (fun p =>
    match p.functionResponse with
    | some fr =>
      if fr.name.isEmpty then
        let fr' := { fr with name := resolveFCNameGo fr.id acc.reverse }
        { p with functionResponse := some fr' }
      else p
    | none => p)

/-- The message loop of `convertClaudeMessagesToGeminiContents`:
role-mapping, `functionResponse` name resolution for user turns and
merging of consecutive same-role messages.  (The thought-signature cache
registrations mutate only the global cache, not the produced contents,
and are omitted.) -/
def convertMessagesGo : List ClaudeMessage → List Content → List Content
  | [], acc => acc
  | msg :: rest, acc =>
    if msg.role.isEmpty then convertMessagesGo rest acc
    else
      let role := if msg.role == "assistant" then "model" else "user"
      let parts := convertClaudeContentToGeminiParts msg.content
      let parts := if role == "user" then fillFunctionResponseNames acc parts
        else parts
      let acc' :=
        match acc.getLast? with
        | some lastC =>
          if lastC.role == role then
            acc.dropLast ++ [{ lastC with parts := lastC.parts ++ parts }]
          else acc ++ [⟨role, parts⟩]
        | none => acc ++ [⟨role, parts⟩]
      convertMessagesGo rest acc'

/-- The `enableThinking` predicate of
`convertClaudeMessagesToGeminiContents` (it includes the Claude clause). -/
def contentsEnableThinking (modelName : String) : Bool :=
  jsEndsWith modelName "-thinking" || modelName == "gemini-2.5-pro" ||
  jsStartsWith modelName "gemini-3-pro-" || modelName == "rev19-uic3-1p" ||
  modelName == "gpt-oss-120b-medium" || jsIncludes modelName "claude"

/-- Does any historical assistant turn contain a `thinking` block with a
missing/empty signature? -/
def historyHasUnsignedThinking (messages : List ClaudeMessage) : Bool :=
  messages.any (fun m =>
    m.role == "assistant" &&
    (match m.content with
     | ClaudeContent.blocks bs =>
       bs.any (fun b =>
         match b with
         | ClaudeBlock.thinking _ sig => sig.isEmpty
         | _ => false)
     | _ => false))

/-- Handle the last model content (walking the reversed list): no thought
part at all forces thinking off; thought parts not first are reordered to
the front; an empty part list does nothing. -/
def fixLastModelRev : List Content → Bool × List Content
  | [] => (false, [])
  | c :: rest =>
    if c.role == "model" then
      if c.parts.length > 0 then
        if !(c.parts.any GeminiPart.thought) then (true, c :: rest)
        else if !((c.parts.head?.map GeminiPart.thought).getD false) then
          let thinkingParts := c.parts.filter GeminiPart.thought
          let otherParts := c.parts.filter (fun p => !p.thought)
          (false, { c with parts := thinkingParts ++ otherParts } :: rest)
        else (false, c :: rest)
      else (false, c :: rest)
    else
      let r := fixLastModelRev rest
      (r.1, c :: r.2)

/-- Forward-order wrapper of `fixLastModelRev`. -/
def fixLastModel (contents : List Content) : Bool × List Content :=
  let r := fixLastModelRev contents.reverse
  (r.1, r.2.reverse)

/-- `convertClaudeMessagesToGeminiContents(claudeMessages, modelName)`:
returns the contents and `shouldDisableThinking`. -/
def convertClaudeMessagesToGeminiContents (claudeMessages : List ClaudeMessage)
    (modelName : String) : List Content × Bool :=
  let contents := convertMessagesGo claudeMessages []
  if contentsEnableThinking modelName then
    if historyHasUnsignedThinking claudeMessages then (contents, true)
    else
      let r := fixLastModel contents
      (r.2, r.1)
  else (contents, false)

/-- The `thoughtSignature` removal `convertClaudeToGeminiRequest` performs
for Claude-family target models. -/
def stripThoughtSignatures (modelName : String) (contents : List Content) :
    List Content :=
  if jsIncludes modelName "claude" then
    contents.map (fun c =>
      { c with parts := c.parts.map (fun p => { p with thoughtSignature := none }) })
  else contents

/-! ## Generation config and full request (logger.js) -/

/-- `data/config.json` defaults (part of the deployment configuration). -/
def configDefaultTemperature : ℚ := 1

/-- Default `top_p`. -/
def configDefaultTopP : ℚ := 17/20

/-- Default `top_k`. -/
def configDefaultTopK : ℚ := 50

/-- Default `max_tokens`. -/
def configDefaultMaxTokens : Int := 8096

/-- Default `SYSTEM_INSTRUCTION`. -/
def configSystemInstruction : String := ""

/-- `thinkingConfig` of a generation config. -/
structure ThinkingConfig where
  includeThoughts : Bool
  thinkingBudget : Nat
deriving DecidableEq

/-- The produced `generationConfig` (`topP` is `none` once deleted). -/
structure GenerationConfig where
  topP : Option ℚ
  topK : ℚ
  temperature : ℚ
  candidateCount : Nat
  maxOutputTokens : Int
  stopSequences : List String
  thinkingConfig : ThinkingConfig
deriving DecidableEq

/-- An item of an array-valued `system` field. -/
inductive SysItem where
  | strItem (s : String)
  | textItem (text : String)
  | otherItem

/-- The request `system` field. -/
inductive SystemField where
  | strSys (s : String)
  | arrSys (items : List SysItem)

/-- A client tool declaration (`input_schema || {}` when absent). -/
structure ToolDef where
  name : String
  description : String
  inputSchema : Option Json

/-- The client request body (fields the translation reads; absent JS
fields are `none`, and a non-numeric `max_tokens` is modelled `none`). -/
structure ClaudeRequest where
  model : Option String
  messages : List ClaudeMessage
  system : Option SystemField
  tools : Option (List ToolDef)
  maxTokens : Option Int
  temperature : Option ℚ
  topP : Option ℚ
  topK : Option ℚ
  stopSequences : Option (List String)

/-- `generateGenerationConfig(claudeRequest, modelName,
forceDisableThinking)`.  Note its `enableThinking` has no
`includes('claude')` clause. -/
def generateGenerationConfig (claudeRequest : ClaudeRequest)
    (modelName : String) (forceDisableThinking : Bool) : GenerationConfig :=
  let enableThinking := !forceDisableThinking && (
    jsEndsWith modelName "-thinking" || modelName == "gemini-2.5-pro" ||
    jsStartsWith modelName "gemini-3-pro-" || modelName == "rev19-uic3-1p" ||
    modelName == "gpt-oss-120b-medium")
  let gc : GenerationConfig := {
    topP := some (claudeRequest.topP.getD configDefaultTopP)
    topK := claudeRequest.topK.getD configDefaultTopK
    temperature := claudeRequest.temperature.getD configDefaultTemperature
    candidateCount := 1
    maxOutputTokens := claudeRequest.maxTokens.getD configDefaultMaxTokens
    stopSequences := claudeRequest.stopSequences.getD
      ["<|user|>", "<|bot|>", "<|context_request|>", "<|endoftext|>",
       "<|end_of_turn|>"]
    thinkingConfig := ⟨enableThinking, if enableThinking then 1024 else 0⟩ }
  if enableThinking && jsIncludes modelName "claude" then { gc with topP := none }
  else gc

/-- Text of one array-valued `system` item. -/
def sysItemText : SysItem → String
  | SysItem.strItem s => s
  | SysItem.textItem t => t
  | SysItem.otherItem => ""

/-- The `systemInstruction` block: the configured default, replaced by the
client's `system` when that renders non-empty. -/
def buildSystemInstruction (system : Option SystemField) : Content :=
  let defaultContent : Content :=
    ⟨"user", [{ emptyPart with text := some configSystemInstruction }]⟩
  match system with
  | none => defaultContent
  | some sf =>
    let systemText := match sf with
      | SystemField.arrSys items => String.intercalate "\n" (items.map sysItemText)
      | SystemField.strSys s => s
    if systemText.isEmpty then defaultContent
    else ⟨"user", [{ emptyPart with text := some systemText }]⟩

/-- One emitted tool: the single element of `functionDeclarations`. -/
structure GeminiTool where
  name : String
  description : String
  parameters : Json

/-- `convertClaudeToolsToGeminiTools(claudeTools)`. -/
def convertClaudeToolsToGeminiTools (claudeTools : Option (List ToolDef)) :
    List GeminiTool :=
  match claudeTools with
  | some ts =>
    ts.map (fun t => ⟨t.name, t.description,
      cleanJsonSchema (t.inputSchema.getD (Json.obj []))⟩)
  | none => []

/-- The produced upstream request (the random `requestId` is passed in;
`toolConfigValidated` stands for the presence of
`toolConfig.functionCallingConfig.mode = "VALIDATED"`). -/
structure GeminiRequest where
  project : Option String
  requestId : String
  contents : List Content
  systemInstruction : Content
  tools : Option (List GeminiTool)
  toolConfigValidated : Bool
  generationConfig : GenerationConfig
  sessionId : Option String
  model : String
  userAgent : String

/-- `convertClaudeToGeminiRequest(claudeRequest, token)`: empty messages
throw; `max_tokens` defaults to 64000; the model name defaults to
`gemini-2.0-flash-exp`; Claude targets get their `thoughtSignature`s
removed. -/
def convertClaudeToGeminiRequest (claudeRequest : ClaudeRequest)
    (token : Token) (requestId : String) : Except String GeminiRequest :=
  if claudeRequest.messages.isEmpty then Except.error "messages 不能为空"
  else
    let finalMaxTokens := claudeRequest.maxTokens.getD 64000
    let req1 := { claudeRequest with maxTokens := some finalMaxTokens }
    let actualModelName := jsStrOr claudeRequest.model "gemini-2.0-flash-exp"
    let r := convertClaudeMessagesToGeminiContents claudeRequest.messages
      actualModelName
    let contents := stripThoughtSignatures actualModelName r.1
    let systemInstruction := buildSystemInstruction claudeRequest.system
    let geminiTools := convertClaudeToolsToGeminiTools claudeRequest.tools
    let generationConfig := generateGenerationConfig req1 actualModelName r.2
    Except.ok {
      project := token.projectId
      requestId := requestId
      contents := contents
      systemInstruction := systemInstruction
      tools := if geminiTools.isEmpty then none else some geminiTools
      toolConfigValidated := !geminiTools.isEmpty
      generationConfig := generationConfig
      sessionId := token.sessionId
      model := actualModelName
      userAgent := "antigravity" }

/-! ## Request-level token counting (logger.js) -/

/-- Template interpolation `` `${block.content ?? ''}` `` of a
`tool_result` content (arrays join their object items with commas,
objects render as `[object Object]`). -/
def trContentInterpolate : ToolResultContent → String
  | ToolResultContent.strContent s => s
  | ToolResultContent.noContent => ""
  | ToolResultContent.arrContent items =>
    String.intercalate "," (items.map (fun _ => "[object Object]"))
  | ToolResultContent.objContent _ => "[object Object]"

/-- Plain-text rendering of one block for token counting. -/
def blockExtractText : ClaudeBlock → String
  | ClaudeBlock.text t => t
  | ClaudeBlock.thinking th _ => th
  | ClaudeBlock.toolUse _ name input =>
    "<invoke name=\"" ++ name ++ "\">" ++
      jsonStringify (input.getD (Json.obj [])) ++ "</invoke>"
  | ClaudeBlock.toolResult tid content _ =>
    "<tool_result id=\"" ++ tid ++ "\">" ++
      trContentInterpolate content ++ "</tool_result>"
  | _ => ""

/-- Plain-text rendering of one message. -/
def msgExtractText (m : ClaudeMessage) : String :=
  match m.content with
  | ClaudeContent.strContent s => s
  | ClaudeContent.blocks bs => String.join (bs.map blockExtractText)
  | ClaudeContent.otherContent _ => ""

/-- `extractTextFromClaudeMessages(messages)`. -/
def extractTextFromClaudeMessages (messages : List ClaudeMessage) : String :=
  String.intercalate "\n" (messages.map msgExtractText)

/-- JSON form of one tool for the `JSON.stringify(request.tools)` term
(undefined `input_schema` is omitted by stringify). -/
def toolDefToJson (t : ToolDef) : Json :=
  Json.obj ([("name", Json.str t.name), ("description", Json.str t.description)]
    ++ (match t.inputSchema with
        | some j => [("input_schema", j)]
        | none => []))

/-- The result of `countClaudeTokens`. -/
structure TokenCountResult where
  inputTokens : Nat
  tokenCount : Nat
  tokens : Nat
deriving DecidableEq

/-- `countClaudeTokens(request)`: messages text, then the system prompt
(a falsy `system` — the empty string — is skipped), then the tools JSON;
all estimated in one pass. -/
def countClaudeTokens (request : ClaudeRequest) : TokenCountResult :=
  let totalText := extractTextFromClaudeMessages request.messages
  let totalText := match request.system with
    | some (SystemField.strSys s) =>
      if s.isEmpty then totalText else totalText ++ "\n" ++ s
    | some (SystemField.arrSys items) =>
      totalText ++ "\n" ++ String.intercalate "\n" (items.map sysItemText)
    | none => totalText
  let totalText := match request.tools with
    | some ts =>
      if ts.length > 0 then
        totalText ++ "\n" ++ jsonStringify (Json.arr (ts.map toolDefToJson))
      else totalText
    | none => totalText
  let inputTokens := estimateTokensFromText totalText
  ⟨inputTokens, inputTokens, inputTokens⟩

/-! ## Stream emitter (logger.js, `ClaudeSseEmitter`) -/

/-- The kind of a content block. -/
inductive BlockType where
  | text
  | thinking
  | toolUse
deriving DecidableEq

/-- The SSE events, with payloads reduced to what the block discipline
observes (indices and block kinds). -/
inductive SseEvent where
  | messageStart
  | blockStart (index : Nat) (btype : BlockType)
  | blockDelta (index : Nat)
  | blockStop (index : Nat)
  | messageDelta
  | messageStop
deriving DecidableEq

/-- One OpenAI-shaped tool call handed to `sendToolCalls`
(`argumentsJson` is `call?.function?.arguments` in string form). -/
structure ToolCallEv where
  id : Option String
  name : Option String
  argumentsJson : Option String
deriving DecidableEq

/-- The emitter's mutable fields. -/
structure EmState where
  nextIndex : Nat
  textBlockIndex : Option Nat
  thinkingBlockIndex : Option Nat
  finished : Bool
  totalOutputTokens : Nat
deriving DecidableEq

/-- Fresh emitter (constructor). -/
def initEmState : EmState := ⟨0, none, none, false, 0⟩

/-- The emitter's public methods. -/
inductive EmCall where
  | start
  | sendText (text : String)
  | sendThinking (thinking : String)
  | sendToolCalls (toolCalls : List ToolCallEv)
  | finish
deriving DecidableEq

/-- `closeTextBlock`. -/
def closeTextBlock (st : EmState) : EmState × List SseEvent :=
  match st.textBlockIndex with
  | none => (st, [])
  | some i => ({ st with textBlockIndex := none }, [SseEvent.blockStop i])

/-- `closeThinkingBlock`. -/
def closeThinkingBlock (st : EmState) : EmState × List SseEvent :=
  match st.thinkingBlockIndex with
  | none => (st, [])
  | some i => ({ st with thinkingBlockIndex := none }, [SseEvent.blockStop i])

/-- `ensureTextBlock`: open one at the next index when none is open;
returns the open index. -/
def ensureTextBlock (st : EmState) : EmState × Nat × List SseEvent :=
  match st.textBlockIndex with
  | some i => (st, i, [])
  | none =>
    ({ st with textBlockIndex := some st.nextIndex,
               nextIndex := st.nextIndex + 1 },
     st.nextIndex, [SseEvent.blockStart st.nextIndex BlockType.text])

/-- `ensureThinkingBlock`. -/
def ensureThinkingBlock (st : EmState) : EmState × Nat × List SseEvent :=
  match st.thinkingBlockIndex with
  | some i => (st, i, [])
  | none =>
    ({ st with thinkingBlockIndex := some st.nextIndex,
               nextIndex := st.nextIndex + 1 },
     st.nextIndex, [SseEvent.blockStart st.nextIndex BlockType.thinking])

/-- The `forEach` body of `sendToolCalls`: each call takes a fresh index
and emits its start/delta/stop triple immediately. -/
def sendToolCallsGo : EmState → List ToolCallEv → EmState × List SseEvent
  | st, [] => (st, [])
  | st, call :: rest =>
    let index := st.nextIndex
    let inputJson := call.argumentsJson.getD "\x7b\x7d"
    let st1 : EmState := { st with
      nextIndex := st.nextIndex + 1,
      totalOutputTokens := st.totalOutputTokens + estimateTokensFromText inputJson }
    let r := sendToolCallsGo st1 rest
    (r.1, [SseEvent.blockStart index BlockType.toolUse,
           SseEvent.blockDelta index, SseEvent.blockStop index] ++ r.2)

/-- One emitter method call: the updated state and the events written. -/
def emitCall (st : EmState) : EmCall → EmState × List SseEvent
  | EmCall.start => (st, [SseEvent.messageStart])
  | EmCall.sendText text =>
    if text.isEmpty then (st, [])
    else
      let r1 := closeThinkingBlock st
      let r2 := ensureTextBlock r1.1
      let st3 : EmState := { r2.1 with
        totalOutputTokens := r2.1.totalOutputTokens + estimateTokensFromText text }
      (st3, r1.2 ++ r2.2.2 ++ [SseEvent.blockDelta r2.2.1])
  | EmCall.sendThinking thinking =>
    if thinking.isEmpty then (st, [])
    else
      let r1 := closeTextBlock st
      let r2 := ensureThinkingBlock r1.1
      let st3 : EmState := { r2.1 with
        totalOutputTokens := r2.1.totalOutputTokens + estimateTokensFromText thinking }
      (st3, r1.2 ++ r2.2.2 ++ [SseEvent.blockDelta r2.2.1])
  | EmCall.sendToolCalls toolCalls =>
    if toolCalls.isEmpty then (st, [])
    else
      let r1 := closeTextBlock st
      let r2 := closeThinkingBlock r1.1
      let r3 := sendToolCallsGo r2.1 toolCalls
      (r3.1, r1.2 ++ r2.2 ++ r3.2)
  | EmCall.finish =>
    if st.finished then (st, [])
    else
      let st0 : EmState := { st with finished := true }
      let r1 := closeTextBlock st0
      let r2 := closeThinkingBlock r1.1
      (r2.1, r1.2 ++ r2.2 ++ [SseEvent.messageDelta, SseEvent.messageStop])

/-- Run a sequence of emitter calls, concatenating the event trace. -/
def runEmitter : EmState → List EmCall → EmState × List SseEvent
  | st, [] => (st, [])
  | st, c :: cs =>
    let r := emitCall st c
    let r' := runEmitter r.1 cs
    (r'.1, r.2 ++ r'.2)

/-- Is this event a `content_block_start` with the given index? -/
def isBlockStartAt (i : Nat) : SseEvent → Bool
  | SseEvent.blockStart j _ => j == i
  | _ => false

/-- Is this event a `content_block_stop` with the given index? -/
def isBlockStopAt (i : Nat) : SseEvent → Bool
  | SseEvent.blockStop j => j == i
  | _ => false

/-- Number of `content_block_start` events at an index. -/
def startCount (tr : List SseEvent) (i : Nat) : Nat :=
  tr.countP (isBlockStartAt i)

/-- Number of `content_block_stop` events at an index. -/
def stopCount (tr : List SseEvent) (i : Nat) : Nat :=
  tr.countP (isBlockStopAt i)

/-- Every tool-use `content_block_start` is immediately followed by its
`input_json` delta and its stop, so tool blocks overlap nothing. -/
def toolBlocksContiguous : List SseEvent → Bool
  | [] => true
  | SseEvent.blockStart i BlockType.toolUse :: SseEvent.blockDelta j ::
      SseEvent.blockStop k :: rest =>
    i == j && i == k && toolBlocksContiguous rest
  | SseEvent.blockStart _ BlockType.toolUse :: _ => false
  | _ :: rest => toolBlocksContiguous rest

/-- Is the call one of the three send methods? -/
def isSendCall : EmCall → Bool
  | EmCall.sendText _ => true
  | EmCall.sendThinking _ => true
  | EmCall.sendToolCalls _ => true
  | _ => false

/-- A well-formed usage: every send happens before the first `finish`
(after it only `start`/`finish` may occur). -/
def sendsBeforeFirstFinish : List EmCall → Bool
  | [] => true
  | EmCall.finish :: rest => rest.all (fun c => !isSendCall c)
  | _ :: rest => sendsBeforeFirstFinish rest

/-! ## Derived predicates and concrete instances used by the claims -/

/-- Does a JSON object carry the key? (`false` on non-objects.) -/
def jsonObjHasField (j : Json) (k : String) : Bool :=
  match j with
  | Json.obj fs => hasField fs k
  | _ => false

/-- The generation-config thinking predicate as the source computes it in
`generateGenerationConfig` (no Claude clause). -/
def genConfigEnableThinking (modelName : String) : Bool :=
  jsEndsWith modelName "-thinking" || modelName == "gemini-2.5-pro" ||
  jsStartsWith modelName "gemini-3-pro-" || modelName == "rev19-uic3-1p" ||
  modelName == "gpt-oss-120b-medium"

/-- A part qualifies as a signature carrier (any of the three
priorities). -/
def isSigCarrier (p : GeminiPart) : Bool :=
  p.functionCall.isSome || (partTextTruthy p && !p.thought) || p.thought

/-- Some part of the list can carry a signature. -/
def hasQualifyingPart (parts : List GeminiPart) : Bool :=
  parts.any isSigCarrier

/-- How many open blocks (text or thinking) sit at index `i`. -/
def openCountAt (st : EmState) (i : Nat) : Nat :=
  (if st.textBlockIndex = some i then 1 else 0) +
  (if st.thinkingBlockIndex = some i then 1 else 0)

/-- The emitter's block-discipline invariant, relating the state to the
trace emitted so far. -/
def EmInv (st : EmState) (tr : List SseEvent) : Prop :=
  (∀ i, st.nextIndex ≤ i → startCount tr i = 0 ∧ stopCount tr i = 0)
  ∧ (∀ i, startCount tr i ≤ 1)
  ∧ (∀ i, startCount tr i = stopCount tr i + openCountAt st i)
  ∧ (∀ i, st.textBlockIndex = some i → i < st.nextIndex)
  ∧ (∀ i, st.thinkingBlockIndex = some i → i < st.nextIndex)
  ∧ ¬(st.textBlockIndex.isSome = true ∧ st.thinkingBlockIndex.isSome = true)

/-- A reference clock instant (epoch ms). -/
def exNow : Int := 1700000000000

/-- A healthy credential `A` (fresh token, project id present). -/
def exTokenA : Token :=
  ⟨"rtA", some "atA", some 3600, some exNow, some "proj-a", none, [], some "sessA"⟩

/-- A healthy credential `B`. -/
def exTokenB : Token :=
  ⟨"rtB", some "atB", some 3600, some exNow, some "proj-b", none, [], some "sessB"⟩

/-- A selector environment at `exNow` with no usage, the default hourly
limit 20, and failing network outcomes (never reached on healthy pools). -/
def exSelEnv : SelEnv :=
  ⟨exNow, 20, fun _ => 0, fun _ => RefreshOut.httpErr none, fun _ => FetchOut.err,
   false, "gen-project"⟩

/-- A two-credential healthy pool at index 0. -/
def exSelState : SelState := ⟨[exTokenA, exTokenB], 0⟩

/-- The literal C4 schema:
`{type, properties: {x: {type, minLength}}, required, additionalProperties, $schema}`. -/
def exSchemaC4 : Json :=
  Json.obj [("type", Json.str "object"),
    ("properties", Json.obj [("x", Json.obj
      [("type", Json.str "string"), ("minLength", Json.num 3)])]),
    ("required", Json.arr [Json.str "x", Json.str "y"]),
    ("additionalProperties", Json.bool false),
    ("$schema", Json.str "http://json-schema.org/draft-07/schema#")]

/-- What `cleanJsonSchema` actually produces on the literal C4 schema. -/
def exSchemaC4Actual : Json :=
  Json.obj [("type", Json.str "object"),
    ("properties", Json.obj [("x", Json.obj [("type", Json.str "string")])]),
    ("required", Json.arr [Json.str "x"])]

/-- The output the specification claims for the literal C4 schema. -/
def exSchemaC4Claimed : Json :=
  Json.obj [("type", Json.str "object"),
    ("properties", Json.obj [("x", Json.obj [("type", Json.str "string")])]),
    ("required", Json.arr [Json.str "x"]),
    ("description", Json.str "(minLength: minLength, no additional properties)")]

/-- Quota snapshot with every model fully exhausted. -/
def exQuotasZero : String → Option QuotaEntry := fun _ => some ⟨0⟩

/-- An assistant turn with a signed thinking block followed by text. -/
def exBlocksC6 : List ClaudeBlock :=
  [ClaudeBlock.thinking "t1" "S", ClaudeBlock.text "hi"]

/-- The single-assistant-message history built from `exBlocksC6`. -/
def exMsgsC6 : List ClaudeMessage :=
  [⟨"assistant", ClaudeContent.blocks exBlocksC6⟩]

/-- The C3 request targeting `claude-sonnet-4-5` with a signed, properly
ordered last assistant turn (no forced-disable condition holds). -/
def exReqC3 : ClaudeRequest :=
  ⟨some "claude-sonnet-4-5", exMsgsC6, none, none, none, none, none, none, none⟩

/-- A tiny request used to witness the token-count aliases. -/
def exReqC8 : ClaudeRequest :=
  ⟨some "gemini-2.5-pro", [⟨"user", ClaudeContent.strContent "hello"⟩],
   none, none, none, none, none, none, none⟩

/-- A cooldown state holding one live record for `("p","m")` and its
timer (deadline `exNow + 1000`). -/
def exCdStateC9 : CdState :=
  ⟨[("p:m", ⟨"p", "m", exNow + 1000, "RESOURCE_EXHAUSTED", exNow - 5000⟩)], ["p:m"]⟩

/-- The spec scenario-6 call sequence for the emitter. -/
def exCallsC7 : List EmCall :=
  [EmCall.start, EmCall.sendThinking "a", EmCall.sendText "b",
   EmCall.sendToolCalls [⟨some "t1", some "f", some "\x7b\x7d"⟩], EmCall.finish]

/-- A sequence that sends after `finish`: the claim fails on it. -/
def exCallsC7Bad : List EmCall :=
  [EmCall.finish, EmCall.sendText "a", EmCall.finish]

/-- One extra concrete schema exercising the root-description branch of
`cleanJsonSchema` (a description exists at the root, a facet is stripped
at the root). -/
def exSchemaC4Desc : Json :=
  Json.obj [("description", Json.str "d"), ("additionalProperties", Json.bool false)]

/-- The group average the quota consultation computes inside
`setCooldown` (`remaining || 0` summed over the group models present in
the snapshot, divided by their number; zero when none are present). -/
def avgRemainingOf (quotas : String → Option QuotaEntry) (g : String) : ℚ :=
  let present := (getModelsInGroup g).filterMap quotas
  if present.length > 0 then
    (present.map QuotaEntry.remaining).sum / (present.length : ℚ)
  else 0

/-! ## General helper lemmas -/

/-- Ceiling of a quarter as pure `Nat` arithmetic. -/
theorem natCeilDivFour (n : ℕ) : Nat.ceil ((n : ℚ) / 4) = (n + 3) / 4 := by
  have h4 : (0 : ℚ) < 4 := by norm_num
  apply le_antisymm
  · rw [Nat.ceil_le, div_le_iff₀ h4]
    have hn : n ≤ ((n + 3) / 4) * 4 := by omega
    exact_mod_cast hn
  · rcases Nat.eq_zero_or_pos ((n + 3) / 4) with h0 | h0
    · simp [h0]
    · have hlt : ((n + 3) / 4 - 1) < Nat.ceil ((n : ℚ) / 4) := by
        rw [Nat.lt_ceil, lt_div_iff₀ h4]
        have hx : (((n + 3) / 4 - 1) * 4) < n := by omega
        exact_mod_cast hx
      omega

/-- Looking up a cons cell of the association list. -/
theorem alistGet_cons (k : String) (a : String) (b : CdRecord)
    (tl : List (String × CdRecord)) :
    alistGet k ((a, b) :: tl) = if a = k then some b else alistGet k tl := by
  by_cases h : a = k
  · simp [alistGet, List.find?_cons, h]
  · simp [alistGet, List.find?_cons, h]

/-- A key absent from the association list looks up to `none`. -/
theorem alistGet_eq_none_of_not_mem (k : String) :
    ∀ l : List (String × CdRecord), (∀ p ∈ l, p.1 ≠ k) → alistGet k l = none := by
  intro l
  induction l with
  | nil => intro _; rfl
  | cons hd tl ih =>
    intro h
    obtain ⟨a, b⟩ := hd
    rw [alistGet_cons, if_neg (h (a, b) (by simp))]
    exact ih (fun p hp => h p (by simp [hp]))

/-- `Map.set` then `get` at the same key. -/
theorem alistGet_set_self (k : String) (v : CdRecord) :
    ∀ l : List (String × CdRecord), alistGet k (alistSet k v l) = some v := by
  intro l
  induction l with
  | nil => simp [alistSet, alistGet_cons]
  | cons hd tl ih =>
    obtain ⟨a, b⟩ := hd
    by_cases h : a = k
    · simp [alistSet, h, alistGet_cons]
    · simp only [alistSet]
      rw [if_neg (by simpa using h), alistGet_cons, if_neg h]
      exact ih

/-- `Map.set` leaves other keys alone. -/
theorem alistGet_set_other (k k' : String) (v : CdRecord) (h : k ≠ k') :
    ∀ l : List (String × CdRecord), alistGet k (alistSet k' v l) = alistGet k l := by
  intro l
  induction l with
  | nil =>
    simp only [alistSet]
    rw [alistGet_cons, if_neg (fun he => h he.symm)]
  | cons hd tl ih =>
    obtain ⟨a, b⟩ := hd
    by_cases h1 : a = k'
    · subst h1
      simp only [alistSet]
      rw [if_pos (by simp)]
      rw [alistGet_cons, alistGet_cons, if_neg (fun he => h he.symm),
        if_neg (fun he => h he.symm)]
    · simp only [alistSet]
      rw [if_neg (by simpa using h1)]
      rw [alistGet_cons, alistGet_cons]
      by_cases h2 : a = k
      · simp [h2]
      · simp [h2, ih]

/-- `Map.delete` leaves other keys alone. -/
theorem alistGet_delete_other (k k' : String) (h : k ≠ k') :
    ∀ l : List (String × CdRecord), alistGet k (alistDelete k' l) = alistGet k l := by
  intro l
  induction l with
  | nil => rfl
  | cons hd tl ih =>
    obtain ⟨a, b⟩ := hd
    by_cases h1 : a = k'
    · subst h1
      simp only [alistDelete]
      rw [if_pos (by simp)]
      rw [alistGet_cons, if_neg (fun he => h he.symm)]
    · simp only [alistDelete]
      rw [if_neg (by simpa using h1)]
      rw [alistGet_cons, alistGet_cons]
      by_cases h2 : a = k
      · simp [h2]
      · simp [h2, ih]

/-- With unique keys, `set` then `delete` at the same key erases it. -/
theorem alistGet_delete_set_self (k : String) (v : CdRecord) :
    ∀ l : List (String × CdRecord), (l.map Prod.fst).Nodup →
      alistGet k (alistDelete k (alistSet k v l)) = none := by
  intro l
  induction l with
  | nil =>
    intro _
    simp only [alistSet, alistDelete]
    rw [if_pos (by simp)]
    rfl
  | cons hd tl ih =>
    intro hnd
    obtain ⟨a, b⟩ := hd
    have hnd' : (a :: tl.map Prod.fst).Nodup := by simpa using hnd
    have hhd : a ∉ tl.map Prod.fst := (List.nodup_cons.mp hnd').1
    have htl : (tl.map Prod.fst).Nodup := (List.nodup_cons.mp hnd').2
    by_cases h : a = k
    · subst h
      simp only [alistSet]
      rw [if_pos (by simp)]
      simp only [alistDelete]
      rw [if_pos (by simp)]
      apply alistGet_eq_none_of_not_mem
      intro p hp he
      exact hhd (by rw [← he]; exact List.mem_map_of_mem Prod.fst hp)
    · simp only [alistSet]
      rw [if_neg (by simpa using h)]
      simp only [alistDelete]
      rw [if_neg (by simpa using h)]
      rw [alistGet_cons, if_neg h]
      exact ih htl


/-! ## C8 — token estimation -/

/-- C8 (amended): the estimator returns `max(1, ceil(len/4))` for every
non-empty text but `0` for the empty string, and the request-level count
exposes `input_tokens` with equal aliases `token_count` and `tokens`. -/
theorem C8_token_estimation (s : String) (req : ClaudeRequest)
    (h : s.isEmpty = false) :
    estimateTokensFromText s = max 1 ((s.length + 3) / 4)
    ∧ estimateTokensFromText "" = 0
    ∧ (countClaudeTokens req).tokenCount = (countClaudeTokens req).inputTokens
    ∧ (countClaudeTokens req).tokens = (countClaudeTokens req).inputTokens := by
  refine ⟨?_, rfl, rfl, rfl⟩
  simp [estimateTokensFromText, h, natCeilDivFour]

/-- C8 witness at the five-character string `"abcde"`. -/
theorem C8_token_estimation_witness :
    ("abcde" : String).isEmpty = false ∧
    (estimateTokensFromText "abcde" = max 1 ((("abcde" : String).length + 3) / 4)
     ∧ estimateTokensFromText "" = 0
     ∧ (countClaudeTokens exReqC8).tokenCount = (countClaudeTokens exReqC8).inputTokens
     ∧ (countClaudeTokens exReqC8).tokens = (countClaudeTokens exReqC8).inputTokens) :=
  ⟨rfl, C8_token_estimation "abcde" exReqC8 rfl⟩

/-- C8 counterexample: on the empty string the estimator returns `0`, not
the claimed `max(1, ceil(0/4)) = 1`. -/
theorem C8_counterexample :
    estimateTokensFromText "" = 0
    ∧ estimateTokensFromText "" ≠
        max 1 (Nat.ceil ((("" : String).length : ℚ) / 4)) := by
  constructor
  · rfl
  · intro hEq
    have h1 : max 1 (Nat.ceil ((("" : String).length : ℚ) / 4)) = 1 := by
      have h0 : (("" : String).length : ℚ) = 0 := by norm_num [String.length]
      rw [h0]
      norm_num
    rw [h1] at hEq
    exact absurd hEq (by decide)

/-! ## C9 — a past deadline cancels the pair -/

/-- C9: installing a cooldown whose `resetTimestamp` is not in the future
leaves no record for the pair (any prior record and timer are removed),
so `isOnCooldown` is false at every instant. -/
theorem C9_past_deadline_cancels (now resetTs : Int) (st : CdState)
    (p m reason : String)
    (h : resetTs ≤ now) (hnd : (st.cooldownMap.map Prod.fst).Nodup) :
    alistGet (buildKey p m)
        (setCooldownInternal now st p m resetTs reason).cooldownMap = none
    ∧ (∀ now', (isOnCooldown now'
        (setCooldownInternal now st p m resetTs reason) p m).1 = false)
    ∧ buildKey p m ∉ (setCooldownInternal now st p m resetTs reason).timerMap := by
  have hnotpos : ¬(resetTs - now > 0) := by omega
  have hget : alistGet (buildKey p m)
      (setCooldownInternal now st p m resetTs reason).cooldownMap = none := by
    simp only [setCooldownInternal, if_neg hnotpos]
    exact alistGet_delete_set_self _ _ _ hnd
  refine ⟨hget, ?_, ?_⟩
  · intro now'
    simp [isOnCooldown, hget]
  · simp only [setCooldownInternal, if_neg hnotpos]
    simp [List.mem_filter]

/-- C9 witness: a live record for `("p","m")` is cancelled by a
past-deadline install. -/
theorem C9_past_deadline_cancels_witness :
    (exNow - 1 ≤ exNow ∧ (exCdStateC9.cooldownMap.map Prod.fst).Nodup)
    ∧ (alistGet (buildKey "p" "m")
        (setCooldownInternal exNow exCdStateC9 "p" "m" (exNow - 1)
          "RESOURCE_EXHAUSTED").cooldownMap = none
      ∧ (∀ now', (isOnCooldown now'
          (setCooldownInternal exNow exCdStateC9 "p" "m" (exNow - 1)
            "RESOURCE_EXHAUSTED") "p" "m").1 = false)
      ∧ buildKey "p" "m" ∉
          (setCooldownInternal exNow exCdStateC9 "p" "m" (exNow - 1)
            "RESOURCE_EXHAUSTED").timerMap) :=
  ⟨⟨by decide, by decide⟩,
   C9_past_deadline_cancels exNow (exNow - 1) exCdStateC9 "p" "m"
     "RESOURCE_EXHAUSTED" (by decide) (by decide)⟩

/-! ## C4 — schema cleaning of the literal input -/

/-- C4 counterexample: the literal schema cleans to an object with **no**
`description` field, while the claimed output carries one (the annotation
is only ever appended to a pre-existing root description, and the
`minLength` stripped below the root never reaches the root). -/
theorem C4_counterexample :
    cleanJsonSchema exSchemaC4 = exSchemaC4Actual
    ∧ jsonObjHasField (cleanJsonSchema exSchemaC4) "description" = false
    ∧ jsonObjHasField exSchemaC4Claimed "description" = true := by
  refine ⟨rfl, ?_, ?_⟩ <;> decide

/-- C4 (amended): the literal input cleans to
`{type, properties: {x: {type: "string"}}, required: ["x"]}` — facets are
stripped everywhere and `required` is intersected — and the facet
annotation is appended to the root `description` only when the root
already has one, as the second instance shows. -/
theorem C4_schema_cleaning :
    cleanJsonSchema exSchemaC4 = exSchemaC4Actual
    ∧ cleanJsonSchema exSchemaC4Desc =
        Json.obj [("description", Json.str "d (no additional properties)")] :=
  ⟨rfl, rfl⟩

/-- Helper: `saveMergeStep` never changes the sequence of refresh tokens. -/
theorem saveMergeStep_map_refresh (mem : Token) :
    ∀ l : List Token,
      (saveMergeStep l mem).map Token.refreshToken = l.map Token.refreshToken := by
  intro l
  induction l with
  | nil => rfl
  | cons t ts ih =>
    by_cases h : t.refreshToken == mem.refreshToken
    · simp [saveMergeStep, h, stripSession]
      exact (eq_of_beq h).symm
    · simp [saveMergeStep, h, ih]

/-- Helper: elements of the merged array come from disk or are stripped
memory tokens. -/
theorem saveMergeStep_mem (mem : Token) :
    ∀ l : List Token, ∀ t ∈ saveMergeStep l mem,
      t ∈ l ∨ t = stripSession mem := by
  intro l
  induction l with
  | nil => intro t h; exact absurd h (by simp [saveMergeStep])
  | cons a as ih =>
    intro t ht
    by_cases h : a.refreshToken == mem.refreshToken
    · simp [saveMergeStep, h] at ht
      rcases ht with h1 | h2
      · exact Or.inr h1
      · exact Or.inl (by simp [h2])
    · simp [saveMergeStep, h] at ht
      rcases ht with h1 | h2
      · exact Or.inl (by simp [h1])
      · rcases ih t h2 with h3 | h4
        · exact Or.inl (by simp [h3])
        · exact Or.inr h4

/-- Helper: the fold over all memory tokens preserves the refresh-token
sequence of the disk array. -/
theorem saveToFile_map_refresh (memTokens : List Token) :
    ∀ diskTokens : List Token,
      (saveToFile diskTokens memTokens).map Token.refreshToken
        = diskTokens.map Token.refreshToken := by
  induction memTokens with
  | nil => intro d; rfl
  | cons m ms ih =>
    intro d
    have h1 : saveToFile d (m :: ms) = saveToFile (saveMergeStep d m) ms := rfl
    rw [h1, ih, saveMergeStep_map_refresh]

/-- C10: persistence never inserts memory-only credentials — the write
keeps the on-disk refresh-token sequence exactly as it was, and every
entry of the written array is either an untouched on-disk entry or a
memory token with its `sessionId` stripped. -/
theorem C10_persist_no_insert (diskTokens memTokens : List Token) :
    (saveToFile diskTokens memTokens).map Token.refreshToken
        = diskTokens.map Token.refreshToken
    ∧ ∀ t ∈ saveToFile diskTokens memTokens,
        t ∈ diskTokens ∨ ∃ mem ∈ memTokens, t = stripSession mem := by
  constructor
  · exact saveToFile_map_refresh memTokens diskTokens
  · induction memTokens generalizing diskTokens with
    | nil => intro t ht; exact Or.inl ht
    | cons m ms ih =>
      intro t ht
      have h1 : saveToFile diskTokens (m :: ms) = saveToFile (saveMergeStep diskTokens m) ms := rfl
      rw [h1] at ht
      rcases ih (saveMergeStep diskTokens m) t ht with h2 | h3
      · rcases saveMergeStep_mem m diskTokens t h2 with h4 | h5
        · exact Or.inl h4
        · exact Or.inr ⟨m, by simp, h5⟩
      · rcases h3 with ⟨mem, hmem, heq⟩
        exact Or.inr ⟨mem, by simp [hmem], heq⟩

/-! ## C3 — thinking enablement -/

/-- C3 (amended): the flag that builds `generationConfig.thinkingConfig`
is `-thinking`-suffix or one of the enumerated reasoning models — the
`includes('claude')` clause belongs only to the message-conversion
predicate; when the flag holds the emitted config is
`{includeThoughts: true, thinkingBudget: 1024}`, otherwise
`{includeThoughts: false, thinkingBudget: 0}`. -/
theorem C3_thinking_enablement (req : ClaudeRequest) (modelName : String)
    (force : Bool) :
    (generateGenerationConfig req modelName force).thinkingConfig =
      (if !force && genConfigEnableThinking modelName then ⟨true, 1024⟩
       else ⟨false, 0⟩)
    ∧ contentsEnableThinking modelName
        = (genConfigEnableThinking modelName || jsIncludes modelName "claude") := by
  constructor
  · have hE : (!force && genConfigEnableThinking modelName)
        = (!force && (jsEndsWith modelName "-thinking" ||
            modelName == "gemini-2.5-pro" ||
            jsStartsWith modelName "gemini-3-pro-" ||
            modelName == "rev19-uic3-1p" ||
            modelName == "gpt-oss-120b-medium")) := rfl
    cases hc : (!force && genConfigEnableThinking modelName) with
    | false =>
      rw [hE] at hc
      simp [generateGenerationConfig, hc]
    | true =>
      rw [hE] at hc
      simp only [generateGenerationConfig, hc]
      split <;> simp
  · simp [contentsEnableThinking, genConfigEnableThinking, Bool.or_assoc]

/-- C3 counterexample: `claude-sonnet-4-5` contains `claude` but does not
end in `-thinking`; with no forced-disable condition in the history the
emitted `thinkingConfig` is `{false, 0}`, not the claimed `{true, 1024}`. -/
theorem C3_counterexample :
    jsIncludes "claude-sonnet-4-5" "claude" = true
    ∧ jsEndsWith "claude-sonnet-4-5" "-thinking" = false
    ∧ (convertClaudeMessagesToGeminiContents exMsgsC6 "claude-sonnet-4-5").2 = false
    ∧ (convertClaudeToGeminiRequest exReqC3 exTokenA "req1").toOption.map
        (fun g => g.generationConfig.thinkingConfig) = some ⟨false, 0⟩
    ∧ (⟨false, 0⟩ : ThinkingConfig) ≠ ⟨true, 1024⟩ :=
  ⟨by decide, by decide, by decide, by decide, by decide⟩

/-! ## C5 — group-wide cooldown -/

/-- String extensionality via the underlying character list. -/
theorem stringDataExt (a b : String) (h : a.data = b.data) : a = b := by
  cases a; cases b; simp at h; rw [h]

/-- `buildKey` is injective in the model for a fixed project. -/
theorem buildKey_model_inj (p a b : String) (h : buildKey p a = buildKey p b) :
    a = b := by
  have hd := congrArg String.data h
  simp only [buildKey, String.data_append, List.append_assoc] at hd
  have h1 := List.append_cancel_left hd
  have h2 := List.append_cancel_left h1
  exact stringDataExt a b h2

/-- A future-dated `setCooldownInternal` stores the record at its key. -/
theorem scInternal_get_self (now resetTs : Int) (st : CdState)
    (p m reason : String) (h : now < resetTs) :
    alistGet (buildKey p m)
        (setCooldownInternal now st p m resetTs reason).cooldownMap
      = some ⟨p, m, resetTs, reason, now⟩ := by
  have hpos : resetTs - now > 0 := by omega
  simp only [setCooldownInternal, if_pos hpos]
  exact alistGet_set_self _ _ _

/-- `setCooldownInternal` never touches other keys. -/
theorem scInternal_get_other (now resetTs : Int) (st : CdState)
    (p m reason k : String) (hk : k ≠ buildKey p m) :
    alistGet k (setCooldownInternal now st p m resetTs reason).cooldownMap
      = alistGet k st.cooldownMap := by
  by_cases hpos : resetTs - now > 0
  · simp only [setCooldownInternal, if_pos hpos]
    exact alistGet_set_other _ _ _ hk _
  · simp only [setCooldownInternal, if_neg hpos]
    rw [alistGet_delete_other _ _ hk, alistGet_set_other _ _ _ hk]

/-- Folding `setCooldownInternal` over models never touches a key outside
the folded set. -/
theorem foldl_scInternal_preserve (now resetTs : Int) (p reason key : String) :
    ∀ (models : List String) (st : CdState),
      (∀ x ∈ models, key ≠ buildKey p x) →
      alistGet key ((models.foldl
        (fun s m' => setCooldownInternal now s p m' resetTs reason) st)).cooldownMap
        = alistGet key st.cooldownMap := by
  intro models
  induction models with
  | nil => intro st _; rfl
  | cons m' rest ih =>
    intro st h
    rw [List.foldl_cons, ih _ (fun x hx => h x (by simp [hx]))]
    exact scInternal_get_other now resetTs st p m' reason key (h m' (by simp))

/-- Folding a future-dated `setCooldownInternal` over a model list
installs the record of every member. -/
theorem foldl_scInternal_install (now resetTs : Int) (p reason : String)
    (h : now < resetTs) :
    ∀ (models : List String) (st : CdState) (mdl : String), mdl ∈ models →
      alistGet (buildKey p mdl) ((models.foldl
        (fun s m' => setCooldownInternal now s p m' resetTs reason) st)).cooldownMap
        = some ⟨p, mdl, resetTs, reason, now⟩ := by
  intro models
  induction models with
  | nil => intro st mdl hm; exact absurd hm (by simp)
  | cons m' rest ih =>
    intro st mdl hm
    rw [List.foldl_cons]
    by_cases hin : mdl ∈ rest
    · exact ih _ mdl hin
    · have hm' : mdl = m' := by
        rcases List.mem_cons.mp hm with h1 | h1
        · exact h1
        · exact absurd h1 hin
      subst hm'
      rw [foldl_scInternal_preserve now resetTs p reason _ rest _ ?hneq]
      · exact scInternal_get_self now resetTs st p mdl reason h
      case hneq =>
        intro x hx heq
        have hx2 := buildKey_model_inj p mdl x heq
        exact hin (hx2 ▸ hx)

/-- C5 (amended): a `put` with a supplied credential on a grouped model
cools only the single pair when the group's average remaining quota
exceeds 1 %, and otherwise installs an identically-dated record for every
model of the group — all **seven** models in the case of `Gemini其他`. -/
theorem C5_group_cooldown (quotas : String → Option QuotaEntry)
    (now resetTs : Int) (st : CdState) (p model reason : String) (tok : Token)
    (g : String) (hg : getModelGroup model = some g) (hfuture : now < resetTs) :
    ((1/100 : ℚ) < avgRemainingOf quotas g →
       setCooldown (some quotas) now st p model resetTs reason (some tok)
         = setCooldownInternal now st p model resetTs reason)
    ∧ (¬((1/100 : ℚ) < avgRemainingOf quotas g) →
       ∀ mdl ∈ getModelsInGroup g,
         alistGet (buildKey p mdl)
           (setCooldown (some quotas) now st p model resetTs reason
             (some tok)).cooldownMap
           = some ⟨p, mdl, resetTs, reason, now⟩) := by
  have hrw : setCooldown (some quotas) now st p model resetTs reason (some tok)
      = (if avgRemainingOf quotas g > 1/100 then
           setCooldownInternal now st p model resetTs reason
         else (getModelsInGroup g).foldl
           (fun s m' => setCooldownInternal now s p m' resetTs reason) st) := by
    simp only [setCooldown, hg, avgRemainingOf]
  constructor
  · intro havg
    rw [hrw, if_pos havg]
  · intro havg
    rw [hrw, if_neg havg]
    intro mdl hmdl
    exact foldl_scInternal_install now resetTs p reason hfuture _ st mdl hmdl

/-- C5 witness at the literal scenario's shape (exhausted quota snapshot,
future deadline). -/
theorem C5_group_cooldown_witness :
    (getModelGroup "gemini-2.5-pro" = some "Gemini其他" ∧ exNow < exNow + 60000)
    ∧ (((1/100 : ℚ) < avgRemainingOf exQuotasZero "Gemini其他" →
        setCooldown (some exQuotasZero) exNow ⟨[], []⟩ "A" "gemini-2.5-pro"
          (exNow + 60000) "RESOURCE_EXHAUSTED" (some exTokenA)
          = setCooldownInternal exNow ⟨[], []⟩ "A" "gemini-2.5-pro"
            (exNow + 60000) "RESOURCE_EXHAUSTED")
      ∧ (¬((1/100 : ℚ) < avgRemainingOf exQuotasZero "Gemini其他") →
        ∀ mdl ∈ getModelsInGroup "Gemini其他",
          alistGet (buildKey "A" mdl)
            (setCooldown (some exQuotasZero) exNow ⟨[], []⟩ "A" "gemini-2.5-pro"
              (exNow + 60000) "RESOURCE_EXHAUSTED" (some exTokenA)).cooldownMap
            = some ⟨"A", mdl, exNow + 60000, "RESOURCE_EXHAUSTED", exNow⟩)) :=
  ⟨⟨by decide, by decide⟩,
   C5_group_cooldown exQuotasZero exNow (exNow + 60000) ⟨[], []⟩ "A"
     "gemini-2.5-pro" "RESOURCE_EXHAUSTED" exTokenA "Gemini其他"
     (by decide) (by decide)⟩

/-- C5 counterexample: the group `Gemini其他` has seven models, not the
five the claim asserts; after the literal exhausted-quota put, seven
records are on cooldown for `A`. -/
theorem C5_counterexample :
    (getModelsInGroup "Gemini其他").length = 7
    ∧ (getModelsInGroup "Gemini其他").length ≠ 5
    ∧ (setCooldown (some exQuotasZero) exNow ⟨[], []⟩ "A" "gemini-2.5-pro"
        (exNow + 60000) "RESOURCE_EXHAUSTED" (some exTokenA)).cooldownMap.length
        = 7 := by
  refine ⟨by decide, by decide, ?_⟩
  have hg : getModelGroup "gemini-2.5-pro" = some "Gemini其他" := by decide
  have hrw : setCooldown (some exQuotasZero) exNow ⟨[], []⟩ "A" "gemini-2.5-pro"
      (exNow + 60000) "RESOURCE_EXHAUSTED" (some exTokenA)
      = (if avgRemainingOf exQuotasZero "Gemini其他" > 1/100 then
           setCooldownInternal exNow ⟨[], []⟩ "A" "gemini-2.5-pro"
             (exNow + 60000) "RESOURCE_EXHAUSTED"
         else (getModelsInGroup "Gemini其他").foldl
           (fun s m' => setCooldownInternal exNow s "A" m'
             (exNow + 60000) "RESOURCE_EXHAUSTED") ⟨[], []⟩) := by
    simp only [setCooldown, hg, avgRemainingOf]
  have hpresent : (getModelsInGroup "Gemini其他").filterMap exQuotasZero
      = List.replicate 7 ⟨0⟩ := by decide
  have havg : ¬(avgRemainingOf exQuotasZero "Gemini其他" > 1/100) := by
    simp only [avgRemainingOf, hpresent]
    norm_num [List.replicate]
  rw [hrw, if_neg havg]
  decide

/-! ## C2 — cooldown respect -/

/-- C1 (amended): a `getToken` selection whose current credential is
healthy (not model-disabled, not expired, project id present, under the
hourly cap) returns exactly the credential at `currentIndex` and leaves
the selector state — including `currentIndex` — unchanged; successive
selections therefore keep returning the same credential. -/
theorem C1_selection_is_sticky (env : SelEnv) (st : SelState) (m : String)
    (t : Token)
    (hget : st.tokens.get? st.currentIndex = some t)
    (heff : (jsTrim m).isEmpty = false)
    (hdis : isModelDisabled t (jsTrim m) = false)
    (hexp : isExpired env.now t = false)
    (hpid : t.projectId.isSome = true)
    (hhr : isWithinHourlyLimit env t = true) :
    getToken env (some m) st = (some t, st) := by
  have hlt : st.currentIndex < st.tokens.length := by
    by_contra hge
    push_neg at hge
    rw [List.get?_eq_none.mpr hge] at hget
    exact absurd hget (by simp)
  obtain ⟨k, hk⟩ : ∃ k, st.tokens.length = k + 1 :=
    ⟨st.tokens.length - 1, by omega⟩
  unfold getToken
  rw [if_neg (by simp [hk])]
  dsimp only []
  rw [if_neg (by simp [heff])]
  rw [hk]
  simp only [getTokenGo, hget, hdis, hexp, Bool.false_eq_true, if_neg,
    getTokenProjectStep]
  have hne : t.projectId.isNone = false := by
    cases hp : t.projectId
    · rw [hp] at hpid; exact absurd hpid (by simp)
    · rfl
  simp [hne, hhr]

/-- C1 witness: a healthy two-credential pool at index 0 yields the
credential at index 0 with the state unchanged. -/
theorem C1_selection_is_sticky_witness :
    (exSelState.tokens.get? exSelState.currentIndex = some exTokenA
     ∧ (jsTrim "gemini-2.5-pro").isEmpty = false
     ∧ isModelDisabled exTokenA (jsTrim "gemini-2.5-pro") = false
     ∧ isExpired exSelEnv.now exTokenA = false
     ∧ exTokenA.projectId.isSome = true
     ∧ isWithinHourlyLimit exSelEnv exTokenA = true)
    ∧ getToken exSelEnv (some "gemini-2.5-pro") exSelState
        = (some exTokenA, exSelState) :=
  ⟨⟨by decide, by decide, by decide, by decide, by decide, by decide⟩,
   C1_selection_is_sticky exSelEnv exSelState "gemini-2.5-pro" exTokenA
     (by decide) (by decide) (by decide) (by decide) (by decide) (by decide)⟩

/-- C1 counterexample: with the healthy pool `[A, B]`, two consecutive
single-model selections both return `A`; the selection counts are 2 and
0, which differ by more than one. -/
theorem C1_counterexample :
    (getToken exSelEnv (some "gemini-2.5-pro") exSelState).1 = some exTokenA
    ∧ (getToken exSelEnv (some "gemini-2.5-pro")
        (getToken exSelEnv (some "gemini-2.5-pro") exSelState).2).1
        = some exTokenA
    ∧ ([(getToken exSelEnv (some "gemini-2.5-pro") exSelState).1,
        (getToken exSelEnv (some "gemini-2.5-pro")
          (getToken exSelEnv (some "gemini-2.5-pro") exSelState).2).1].count
          (some exTokenA) = 2
      ∧ [(getToken exSelEnv (some "gemini-2.5-pro") exSelState).1,
         (getToken exSelEnv (some "gemini-2.5-pro")
           (getToken exSelEnv (some "gemini-2.5-pro") exSelState).2).1].count
           (some exTokenB) = 0)
    ∧ ¬((2 : Nat) - 0 ≤ 1 ∧ (0 : Nat) - 2 ≤ 1) :=
  ⟨by decide, by decide, ⟨by decide, by decide⟩, by decide⟩

/-! ## C6 — thought-signature placement and uniqueness -/

/-- The first conversion pass never sets a `thoughtSignature`. -/
theorem blockToParts_nosig (b : ClaudeBlock) :
    ∀ p ∈ blockToParts b, p.thoughtSignature = none := by
  intro p hp
  cases b with
  | text t => by_cases h : t.isEmpty <;> simp_all [blockToParts, emptyPart]
  | image src => cases src <;> simp_all [blockToParts, emptyPart]
  | thinking th s => by_cases h : th.isEmpty <;> simp_all [blockToParts, emptyPart]
  | redactedThinking => simp_all [blockToParts, emptyPart]
  | toolUse id name input => simp_all [blockToParts, emptyPart]
  | toolResult tid c e => simp_all [blockToParts, emptyPart]
  | otherBlock ty => simp_all [blockToParts]

/-- All parts of a converted turn start without a signature. -/
theorem flatten_blockToParts_nosig (bs : List ClaudeBlock) :
    ∀ p ∈ (bs.map blockToParts).flatten, p.thoughtSignature = none := by
  intro p hp
  rw [List.mem_flatten] at hp
  rcases hp with ⟨l, hl, hpl⟩
  rw [List.mem_map] at hl
  rcases hl with ⟨b, _, hbl⟩
  exact blockToParts_nosig b p (hbl ▸ hpl)

/-- Priority 1 fires whenever some part is a `functionCall`. -/
theorem applySigFC_some_of_any (sig : String) :
    ∀ parts : List GeminiPart,
      parts.any (fun p => p.functionCall.isSome) = true →
      (applySigFirstFunctionCall sig parts).isSome = true := by
  intro parts
  induction parts with
  | nil => intro h; exact absurd h (by simp)
  | cons p ps ih =>
    intro h
    by_cases hp : p.functionCall.isSome = true
    · simp [applySigFirstFunctionCall, hp]
    · simp only [List.any_cons, hp, Bool.false_or] at h
      have := ih h
      simp only [applySigFirstFunctionCall, hp, Bool.false_eq_true, if_neg]
      cases hr : applySigFirstFunctionCall sig ps with
      | none => rw [hr] at this; exact absurd this (by simp)
      | some l => simp [hr]

/-- Priority 2 fires whenever some part is a non-thought truthy text. -/
theorem applySigText_some_of_any (sig : String) :
    ∀ parts : List GeminiPart,
      parts.any (fun p => partTextTruthy p && !p.thought) = true →
      (applySigLastPlainText sig parts).isSome = true := by
  intro parts
  induction parts with
  | nil => intro h; exact absurd h (by simp)
  | cons p ps ih =>
    intro h
    cases hr : applySigLastPlainText sig ps with
    | some l => simp [applySigLastPlainText, hr]
    | none =>
      simp only [List.any_cons] at h
      have hcond : (partTextTruthy p && !p.thought) = true := by
        have h' : (partTextTruthy p && !p.thought) = true
            ∨ ps.any (fun q => partTextTruthy q && !q.thought) = true := by
          simpa using h
        rcases h' with h1 | h1
        · exact h1
        · have h2 := ih h1
          rw [hr] at h2
          exact absurd h2 (by simp)
      simp [applySigLastPlainText, hr, hcond]

/-- Priority 3 fires whenever some part is a thought. -/
theorem applySigThought_some_of_any (sig : String) :
    ∀ parts : List GeminiPart,
      parts.any (fun p => p.thought) = true →
      (applySigLastThought sig parts).isSome = true := by
  intro parts
  induction parts with
  | nil => intro h; exact absurd h (by simp)
  | cons p ps ih =>
    intro h
    cases hr : applySigLastThought sig ps with
    | some l => simp [applySigLastThought, hr]
    | none =>
      simp only [List.any_cons] at h
      have hcond : p.thought = true := by
        have h' : p.thought = true ∨ ps.any (fun q => q.thought) = true := by
          simpa using h
        rcases h' with h1 | h1
        · exact h1
        · have h2 := ih h1
          rw [hr] at h2
          exact absurd h2 (by simp)
      simp [applySigLastThought, hr, hcond]

/-- No `functionCall` part means priority 1 does not fire. -/
theorem applySigFC_none_of_no_fc (sig : String) :
    ∀ parts : List GeminiPart,
      parts.any (fun p => p.functionCall.isSome) = false →
      applySigFirstFunctionCall sig parts = none := by
  intro parts
  induction parts with
  | nil => intro _; rfl
  | cons p ps ih =>
    intro h
    have h' : p.functionCall.isSome = false
        ∧ ps.any (fun q => q.functionCall.isSome) = false := by simpa using h
    simp [applySigFirstFunctionCall, h'.1, ih h'.2]

/-- No plain-text part means priority 2 does not fire. -/
theorem applySigText_none_of_no_text (sig : String) :
    ∀ parts : List GeminiPart,
      parts.any (fun p => partTextTruthy p && !p.thought) = false →
      applySigLastPlainText sig parts = none := by
  intro parts
  induction parts with
  | nil => intro _; rfl
  | cons p ps ih =>
    intro h
    have h' : (partTextTruthy p && !p.thought) = false
        ∧ ps.any (fun q => partTextTruthy q && !q.thought) = false := by simpa using h
    simp [applySigLastPlainText, h'.1, ih h'.2]

/-- Priority 1 marks exactly one part — the first `functionCall`. -/
theorem applySigFC_count (sig : String) :
    ∀ (parts l : List GeminiPart),
      (∀ p ∈ parts, p.thoughtSignature = none) →
      applySigFirstFunctionCall sig parts = some l →
      l.countP (fun p => p.thoughtSignature == some sig) = 1
      ∧ (∀ p ∈ l, p.thoughtSignature = none ∨ p.thoughtSignature = some sig)
      ∧ ∃ p ∈ l, p.thoughtSignature = some sig ∧ p.functionCall.isSome = true := by
  intro parts
  induction parts with
  | nil => intro l _ hl; exact absurd hl (by simp [applySigFirstFunctionCall])
  | cons p ps ih =>
    intro l hnone hl
    by_cases hp : p.functionCall.isSome = true
    · rw [applySigFirstFunctionCall, if_pos hp] at hl
      have hl2 : ({ p with thoughtSignature := some sig } : GeminiPart) :: ps = l := by
        simpa using hl
      subst hl2
      refine ⟨?_, ?_, ?_⟩
      · rw [List.countP_cons]
        have hz : ps.countP (fun q => q.thoughtSignature == some sig) = 0 := by
          rw [List.countP_eq_zero]
          intro q hq
          simp [hnone q (by simp [hq])]
        simp [hz]
      · intro q hq
        rcases List.mem_cons.mp hq with h1 | h1
        · right; rw [h1]
        · left; exact hnone q (by simp [h1])
      · exact ⟨{ p with thoughtSignature := some sig }, by simp, rfl,
          by simpa using hp⟩
    · rw [applySigFirstFunctionCall, if_neg hp] at hl
      cases hr : applySigFirstFunctionCall sig ps with
      | none => rw [hr] at hl; exact absurd hl (by simp)
      | some ps' =>
        rw [hr] at hl
        have hl2 : p :: ps' = l := by simpa using hl
        subst hl2
        obtain ⟨c1, c2, c3⟩ := ih ps' (fun q hq => hnone q (by simp [hq])) hr
        refine ⟨?_, ?_, ?_⟩
        · rw [List.countP_cons]
          simp [hnone p (by simp), c1]
        · intro q hq
          rcases List.mem_cons.mp hq with h1 | h1
          · left; rw [h1]; exact hnone p (by simp)
          · exact c2 q h1
        · obtain ⟨q, hq, hqs, hqf⟩ := c3
          exact ⟨q, by simp [hq], hqs, hqf⟩

/-- Priority 2 marks exactly one part — the last plain text. -/
theorem applySigText_count (sig : String) :
    ∀ (parts l : List GeminiPart),
      (∀ p ∈ parts, p.thoughtSignature = none) →
      applySigLastPlainText sig parts = some l →
      l.countP (fun p => p.thoughtSignature == some sig) = 1
      ∧ (∀ p ∈ l, p.thoughtSignature = none ∨ p.thoughtSignature = some sig)
      ∧ ∃ p ∈ l, p.thoughtSignature = some sig
          ∧ (partTextTruthy p && !p.thought) = true := by
  intro parts
  induction parts with
  | nil => intro l _ hl; exact absurd hl (by simp [applySigLastPlainText])
  | cons p ps ih =>
    intro l hnone hl
    rw [applySigLastPlainText] at hl
    cases hr : applySigLastPlainText sig ps with
    | some ps' =>
      rw [hr] at hl
      have hl2 : p :: ps' = l := by simpa using hl
      subst hl2
      obtain ⟨c1, c2, c3⟩ := ih ps' (fun q hq => hnone q (by simp [hq])) hr
      refine ⟨?_, ?_, ?_⟩
      · rw [List.countP_cons]
        simp [hnone p (by simp), c1]
      · intro q hq
        rcases List.mem_cons.mp hq with h1 | h1
        · left; rw [h1]; exact hnone p (by simp)
        · exact c2 q h1
      · obtain ⟨q, hq, hqs, hqt⟩ := c3
        exact ⟨q, by simp [hq], hqs, hqt⟩
    | none =>
      rw [hr] at hl
      by_cases hc : (partTextTruthy p && !p.thought) = true
      · rw [if_pos hc] at hl
        have hl2 : ({ p with thoughtSignature := some sig } : GeminiPart) :: ps = l := by
          simpa using hl
        subst hl2
        refine ⟨?_, ?_, ?_⟩
        · rw [List.countP_cons]
          have hz : ps.countP (fun q => q.thoughtSignature == some sig) = 0 := by
            rw [List.countP_eq_zero]
            intro q hq
            simp [hnone q (by simp [hq])]
          simp [hz]
        · intro q hq
          rcases List.mem_cons.mp hq with h1 | h1
          · right; rw [h1]
          · left; exact hnone q (by simp [h1])
        · refine ⟨{ p with thoughtSignature := some sig }, by simp, rfl, ?_⟩
          simpa [partTextTruthy] using hc
      · rw [if_neg hc] at hl
        exact absurd hl (by simp)

/-- Priority 3 marks exactly one part — the last thought. -/
theorem applySigThought_count (sig : String) :
    ∀ (parts l : List GeminiPart),
      (∀ p ∈ parts, p.thoughtSignature = none) →
      applySigLastThought sig parts = some l →
      l.countP (fun p => p.thoughtSignature == some sig) = 1
      ∧ (∀ p ∈ l, p.thoughtSignature = none ∨ p.thoughtSignature = some sig)
      ∧ ∃ p ∈ l, p.thoughtSignature = some sig ∧ p.thought = true := by
  intro parts
  induction parts with
  | nil => intro l _ hl; exact absurd hl (by simp [applySigLastThought])
  | cons p ps ih =>
    intro l hnone hl
    rw [applySigLastThought] at hl
    cases hr : applySigLastThought sig ps with
    | some ps' =>
      rw [hr] at hl
      have hl2 : p :: ps' = l := by simpa using hl
      subst hl2
      obtain ⟨c1, c2, c3⟩ := ih ps' (fun q hq => hnone q (by simp [hq])) hr
      refine ⟨?_, ?_, ?_⟩
      · rw [List.countP_cons]
        simp [hnone p (by simp), c1]
      · intro q hq
        rcases List.mem_cons.mp hq with h1 | h1
        · left; rw [h1]; exact hnone p (by simp)
        · exact c2 q h1
      · obtain ⟨q, hq, hqs, hqt⟩ := c3
        exact ⟨q, by simp [hq], hqs, hqt⟩
    | none =>
      rw [hr] at hl
      by_cases hc : p.thought = true
      · rw [if_pos hc] at hl
        have hl2 : ({ p with thoughtSignature := some sig } : GeminiPart) :: ps = l := by
          simpa using hl
        subst hl2
        refine ⟨?_, ?_, ?_⟩
        · rw [List.countP_cons]
          have hz : ps.countP (fun q => q.thoughtSignature == some sig) = 0 := by
            rw [List.countP_eq_zero]
            intro q hq
            simp [hnone q (by simp [hq])]
          simp [hz]
        · intro q hq
          rcases List.mem_cons.mp hq with h1 | h1
          · right; rw [h1]
          · left; exact hnone q (by simp [h1])
        · exact ⟨{ p with thoughtSignature := some sig }, by simp, rfl,
          by simpa using hc⟩
      · rw [if_neg hc] at hl
        exact absurd hl (by simp)

/-- No thought part means priority 3 does not fire. -/
theorem applySigThought_none_of_no_thought (sig : String) :
    ∀ parts : List GeminiPart,
      parts.any (fun p => p.thought) = false →
      applySigLastThought sig parts = none := by
  intro parts
  induction parts with
  | nil => intro _; rfl
  | cons p ps ih =>
    intro h
    have h' : p.thought = false ∧ ps.any (fun q => q.thought) = false := by
      simpa using h
    simp [applySigLastThought, h'.1, ih h'.2]

/-- Priority 1 marks the FIRST `functionCall`: the result splits around a
`functionCall` part with no `functionCall` before it. -/
theorem applySigFC_first (sig : String) :
    ∀ (parts l : List GeminiPart),
      applySigFirstFunctionCall sig parts = some l →
      ∃ pre p suf, parts = pre ++ p :: suf
        ∧ l = pre ++ { p with thoughtSignature := some sig } :: suf
        ∧ p.functionCall.isSome = true
        ∧ ∀ q ∈ pre, q.functionCall.isSome = false := by
  intro parts
  induction parts with
  | nil => intro l hl; exact absurd hl (by simp [applySigFirstFunctionCall])
  | cons p ps ih =>
    intro l hl
    by_cases hp : p.functionCall.isSome = true
    · rw [applySigFirstFunctionCall, if_pos hp] at hl
      have hl2 : ({ p with thoughtSignature := some sig } : GeminiPart) :: ps = l := by
        simpa using hl
      exact ⟨[], p, ps, by simp, by simp [← hl2], hp, by simp⟩
    · rw [applySigFirstFunctionCall, if_neg hp] at hl
      cases hr : applySigFirstFunctionCall sig ps with
      | none => rw [hr] at hl; exact absurd hl (by simp)
      | some ps' =>
        rw [hr] at hl
        have hl2 : p :: ps' = l := by simpa using hl
        obtain ⟨pre, q, suf, h1, h2, h3, h4⟩ := ih ps' hr
        refine ⟨p :: pre, q, suf, by simp [h1], by simp [← hl2, h2], h3, ?_⟩
        intro r hr2
        rcases List.mem_cons.mp hr2 with h5 | h5
        · rw [h5]; simpa using hp
        · exact h4 r h5

/-- Priority 2 marks the LAST plain text: the result splits around a
non-thought truthy-text part with no such part after it. -/
theorem applySigText_last (sig : String) :
    ∀ (parts l : List GeminiPart),
      applySigLastPlainText sig parts = some l →
      ∃ pre p suf, parts = pre ++ p :: suf
        ∧ l = pre ++ { p with thoughtSignature := some sig } :: suf
        ∧ (partTextTruthy p && !p.thought) = true
        ∧ ∀ q ∈ suf, (partTextTruthy q && !q.thought) = false := by
  intro parts
  induction parts with
  | nil => intro l hl; exact absurd hl (by simp [applySigLastPlainText])
  | cons p ps ih =>
    intro l hl
    rw [applySigLastPlainText] at hl
    cases hr : applySigLastPlainText sig ps with
    | some ps' =>
      rw [hr] at hl
      have hl2 : p :: ps' = l := by simpa using hl
      obtain ⟨pre, q, suf, h1, h2, h3, h4⟩ := ih ps' hr
      exact ⟨p :: pre, q, suf, by simp [h1], by simp [← hl2, h2], h3, h4⟩
    | none =>
      rw [hr] at hl
      by_cases hc : (partTextTruthy p && !p.thought) = true
      · rw [if_pos hc] at hl
        have hl2 : ({ p with thoughtSignature := some sig } : GeminiPart) :: ps = l := by
          simpa using hl
        refine ⟨[], p, ps, by simp, by simp [← hl2], hc, ?_⟩
        intro q hq
        by_contra hqc
        have hany : ps.any (fun r => partTextTruthy r && !r.thought) = true :=
          List.any_eq_true.mpr ⟨q, hq, by simpa using hqc⟩
        have h2 := applySigText_some_of_any sig ps hany
        rw [hr] at h2
        exact absurd h2 (by simp)
      · rw [if_neg hc] at hl
        exact absurd hl (by simp)

/-- Priority 3 marks the LAST thought: the result splits around a thought
part with no thought part after it. -/
theorem applySigThought_last (sig : String) :
    ∀ (parts l : List GeminiPart),
      applySigLastThought sig parts = some l →
      ∃ pre p suf, parts = pre ++ p :: suf
        ∧ l = pre ++ { p with thoughtSignature := some sig } :: suf
        ∧ p.thought = true
        ∧ ∀ q ∈ suf, q.thought = false := by
  intro parts
  induction parts with
  | nil => intro l hl; exact absurd hl (by simp [applySigLastThought])
  | cons p ps ih =>
    intro l hl
    rw [applySigLastThought] at hl
    cases hr : applySigLastThought sig ps with
    | some ps' =>
      rw [hr] at hl
      have hl2 : p :: ps' = l := by simpa using hl
      obtain ⟨pre, q, suf, h1, h2, h3, h4⟩ := ih ps' hr
      exact ⟨p :: pre, q, suf, by simp [h1], by simp [← hl2, h2], h3, h4⟩
    | none =>
      rw [hr] at hl
      by_cases hc : p.thought = true
      · rw [if_pos hc] at hl
        have hl2 : ({ p with thoughtSignature := some sig } : GeminiPart) :: ps = l := by
          simpa using hl
        refine ⟨[], p, ps, by simp, by simp [← hl2], hc, ?_⟩
        intro q hq
        by_contra hqc
        have hany : ps.any (fun r => r.thought) = true :=
          List.any_eq_true.mpr ⟨q, hq, by simpa using hqc⟩
        have h2 := applySigThought_some_of_any sig ps hany
        rw [hr] at h2
        exact absurd h2 (by simp)
      · rw [if_neg hc] at hl
        exact absurd hl (by simp)

/-- `applySignatureToParts` on an unsigned list with a qualifying part
marks exactly one part, chosen by the strict priority. -/
theorem applySignatureToParts_spec (sig : String) (parts : List GeminiPart)
    (hnone : ∀ p ∈ parts, p.thoughtSignature = none)
    (hqual : hasQualifyingPart parts = true) :
    (applySignatureToParts parts sig).countP
        (fun p => p.thoughtSignature == some sig) = 1
    ∧ (∀ p ∈ applySignatureToParts parts sig,
        p.thoughtSignature = none ∨ p.thoughtSignature = some sig)
    ∧ (parts.any (fun p => p.functionCall.isSome) = true →
        ∃ p ∈ applySignatureToParts parts sig,
          p.thoughtSignature = some sig ∧ p.functionCall.isSome = true)
    ∧ (parts.any (fun p => p.functionCall.isSome) = false →
        parts.any (fun p => partTextTruthy p && !p.thought) = true →
        ∃ p ∈ applySignatureToParts parts sig,
          p.thoughtSignature = some sig
          ∧ (partTextTruthy p && !p.thought) = true)
    ∧ (parts.any (fun p => p.functionCall.isSome) = false →
        parts.any (fun p => partTextTruthy p && !p.thought) = false →
        ∃ p ∈ applySignatureToParts parts sig,
          p.thoughtSignature = some sig ∧ p.thought = true) := by
  unfold applySignatureToParts
  cases hfc : applySigFirstFunctionCall sig parts with
  | some l =>
    obtain ⟨c1, c2, c3⟩ := applySigFC_count sig parts l hnone hfc
    refine ⟨c1, c2, fun _ => c3, fun hf _ => ?_, fun hf _ => ?_⟩
    · rw [applySigFC_none_of_no_fc sig parts hf] at hfc
      exact absurd hfc (by simp)
    · rw [applySigFC_none_of_no_fc sig parts hf] at hfc
      exact absurd hfc (by simp)
  | none =>
    cases htx : applySigLastPlainText sig parts with
    | some l =>
      obtain ⟨c1, c2, c3⟩ := applySigText_count sig parts l hnone htx
      refine ⟨c1, c2, fun hany => ?_, fun _ _ => c3, fun _ ht => ?_⟩
      · have h2 := applySigFC_some_of_any sig parts hany
        rw [hfc] at h2
        exact absurd h2 (by simp)
      · rw [applySigText_none_of_no_text sig parts ht] at htx
        exact absurd htx (by simp)
    | none =>
      cases hth : applySigLastThought sig parts with
      | some l =>
        obtain ⟨c1, c2, c3⟩ := applySigThought_count sig parts l hnone hth
        refine ⟨c1, c2, fun hany => ?_, fun _ hany => ?_, fun _ _ => c3⟩
        · have h2 := applySigFC_some_of_any sig parts hany
          rw [hfc] at h2
          exact absurd h2 (by simp)
        · have h2 := applySigText_some_of_any sig parts hany
          rw [htx] at h2
          exact absurd h2 (by simp)
      | none =>
        exfalso
        obtain ⟨p, hp, hcar⟩ := List.any_eq_true.mp hqual
        have hcar' : (p.functionCall.isSome = true
            ∨ (partTextTruthy p = true ∧ p.thought = false))
            ∨ p.thought = true := by
          simpa [isSigCarrier] using hcar
        rcases hcar' with (h1 | ⟨h1a, h1b⟩) | h1
        · have h2 := applySigFC_some_of_any sig parts
            (List.any_eq_true.mpr ⟨p, hp, h1⟩)
          rw [hfc] at h2
          exact absurd h2 (by simp)
        · have h2 := applySigText_some_of_any sig parts
            (List.any_eq_true.mpr ⟨p, hp, by simp [h1a, h1b]⟩)
          rw [htx] at h2
          exact absurd h2 (by simp)
        · have h2 := applySigThought_some_of_any sig parts
            (List.any_eq_true.mpr ⟨p, hp, h1⟩)
          rw [hth] at h2
          exact absurd h2 (by simp)

/-- C6 (amended): for every assistant turn whose blocks carry a first
non-empty signature, the translation attaches that signature to exactly
one produced part when a qualifying carrier exists, chosen by the strict
priority first `functionCall` part, else last non-thought truthy-text
part, else last thought part (each branch splits the part list around
the chosen carrier, with no earlier `functionCall`, respectively no
later plain text / thought); when no qualifying part exists the parts
are returned unchanged and no part carries a signature.  The signature
is attached for every target model; `thoughtSignature` is stripped only
for Claude-family targets (non-reasoning Gemini targets keep it — see
the counterexample). -/
theorem C6_signature_placement (bs : List ClaudeBlock) (modelName : String)
    (contents : List Content)
    (hsig : (firstSignature bs).isEmpty = false) :
    (hasQualifyingPart ((bs.map blockToParts).flatten) = true →
      (convertClaudeContentToGeminiParts (ClaudeContent.blocks bs)).countP
          (fun p => p.thoughtSignature == some (firstSignature bs)) = 1
      ∧ ∀ p ∈ convertClaudeContentToGeminiParts (ClaudeContent.blocks bs),
          p.thoughtSignature = none
          ∨ p.thoughtSignature = some (firstSignature bs))
    ∧ (((bs.map blockToParts).flatten).any
          (fun p => p.functionCall.isSome) = true →
        ∃ pre p suf, (bs.map blockToParts).flatten = pre ++ p :: suf
          ∧ convertClaudeContentToGeminiParts (ClaudeContent.blocks bs)
              = pre ++ { p with thoughtSignature := some (firstSignature bs) } :: suf
          ∧ p.functionCall.isSome = true
          ∧ ∀ q ∈ pre, q.functionCall.isSome = false)
    ∧ (((bs.map blockToParts).flatten).any
          (fun p => p.functionCall.isSome) = false →
       ((bs.map blockToParts).flatten).any
          (fun p => partTextTruthy p && !p.thought) = true →
        ∃ pre p suf, (bs.map blockToParts).flatten = pre ++ p :: suf
          ∧ convertClaudeContentToGeminiParts (ClaudeContent.blocks bs)
              = pre ++ { p with thoughtSignature := some (firstSignature bs) } :: suf
          ∧ (partTextTruthy p && !p.thought) = true
          ∧ ∀ q ∈ suf, (partTextTruthy q && !q.thought) = false)
    ∧ (((bs.map blockToParts).flatten).any
          (fun p => p.functionCall.isSome) = false →
       ((bs.map blockToParts).flatten).any
          (fun p => partTextTruthy p && !p.thought) = false →
       ((bs.map blockToParts).flatten).any (fun p => p.thought) = true →
        ∃ pre p suf, (bs.map blockToParts).flatten = pre ++ p :: suf
          ∧ convertClaudeContentToGeminiParts (ClaudeContent.blocks bs)
              = pre ++ { p with thoughtSignature := some (firstSignature bs) } :: suf
          ∧ p.thought = true
          ∧ ∀ q ∈ suf, q.thought = false)
    ∧ (hasQualifyingPart ((bs.map blockToParts).flatten) = false →
        convertClaudeContentToGeminiParts (ClaudeContent.blocks bs)
          = (bs.map blockToParts).flatten
        ∧ ∀ p ∈ convertClaudeContentToGeminiParts (ClaudeContent.blocks bs),
            p.thoughtSignature = none)
    ∧ (jsIncludes modelName "claude" = true →
       ∀ c ∈ stripThoughtSignatures modelName contents, ∀ pa ∈ c.parts,
         pa.thoughtSignature = none) := by
  have hconv : convertClaudeContentToGeminiParts (ClaudeContent.blocks bs)
      = applySignatureToParts ((bs.map blockToParts).flatten)
          (firstSignature bs) := by
    simp only [convertClaudeContentToGeminiParts]
    rw [if_neg (by simp [hsig])]
  refine ⟨?_, ?_, ?_, ?_, ?_, ?_⟩
  · intro hqual
    obtain ⟨c1, c2, _, _, _⟩ := applySignatureToParts_spec (firstSignature bs)
      ((bs.map blockToParts).flatten) (flatten_blockToParts_nosig bs) hqual
    rw [hconv]
    exact ⟨c1, c2⟩
  · intro hany
    have hsome := applySigFC_some_of_any (firstSignature bs) _ hany
    cases hfc : applySigFirstFunctionCall (firstSignature bs)
        ((bs.map blockToParts).flatten) with
    | none => rw [hfc] at hsome; exact absurd hsome (by simp)
    | some l =>
      obtain ⟨pre, p, suf, h1, h2, h3, h4⟩ :=
        applySigFC_first (firstSignature bs) _ l hfc
      have happ : applySignatureToParts ((bs.map blockToParts).flatten)
          (firstSignature bs) = l := by
        unfold applySignatureToParts
        rw [hfc]
      exact ⟨pre, p, suf, h1, by rw [hconv, happ]; exact h2, h3, h4⟩
  · intro hfcF htxT
    have hfc := applySigFC_none_of_no_fc (firstSignature bs) _ hfcF
    have hsome := applySigText_some_of_any (firstSignature bs) _ htxT
    cases htx : applySigLastPlainText (firstSignature bs)
        ((bs.map blockToParts).flatten) with
    | none => rw [htx] at hsome; exact absurd hsome (by simp)
    | some l =>
      obtain ⟨pre, p, suf, h1, h2, h3, h4⟩ :=
        applySigText_last (firstSignature bs) _ l htx
      have happ : applySignatureToParts ((bs.map blockToParts).flatten)
          (firstSignature bs) = l := by
        unfold applySignatureToParts
        rw [hfc, htx]
      exact ⟨pre, p, suf, h1, by rw [hconv, happ]; exact h2, h3, h4⟩
  · intro hfcF htxF hthT
    have hfc := applySigFC_none_of_no_fc (firstSignature bs) _ hfcF
    have htxn := applySigText_none_of_no_text (firstSignature bs) _ htxF
    have hsome := applySigThought_some_of_any (firstSignature bs) _ hthT
    cases hth : applySigLastThought (firstSignature bs)
        ((bs.map blockToParts).flatten) with
    | none => rw [hth] at hsome; exact absurd hsome (by simp)
    | some l =>
      obtain ⟨pre, p, suf, h1, h2, h3, h4⟩ :=
        applySigThought_last (firstSignature bs) _ l hth
      have happ : applySignatureToParts ((bs.map blockToParts).flatten)
          (firstSignature bs) = l := by
        unfold applySignatureToParts
        rw [hfc, htxn, hth]
      exact ⟨pre, p, suf, h1, by rw [hconv, happ]; exact h2, h3, h4⟩
  · intro hqualF
    have hno : ∀ p ∈ (bs.map blockToParts).flatten, isSigCarrier p = false := by
      intro p hp
      have h' := List.any_eq_false.mp
        (by simpa [hasQualifyingPart] using hqualF) p hp
      simpa using h'
    have hfcF : ((bs.map blockToParts).flatten).any
        (fun p => p.functionCall.isSome) = false := by
      rw [List.any_eq_false]
      intro p hp hc
      have h' := hno p hp
      simp [isSigCarrier, hc] at h'
    have htxF : ((bs.map blockToParts).flatten).any
        (fun p => partTextTruthy p && !p.thought) = false := by
      rw [List.any_eq_false]
      intro p hp hc
      have hc' : partTextTruthy p = true ∧ p.thought = false := by simpa using hc
      have h' := hno p hp
      simp [isSigCarrier, hc'.1, hc'.2] at h'
    have hthF : ((bs.map blockToParts).flatten).any (fun p => p.thought) = false := by
      rw [List.any_eq_false]
      intro p hp hc
      have h' := hno p hp
      simp [isSigCarrier, hc] at h'
    have happ : applySignatureToParts ((bs.map blockToParts).flatten)
        (firstSignature bs) = (bs.map blockToParts).flatten := by
      unfold applySignatureToParts
      rw [applySigFC_none_of_no_fc _ _ hfcF,
        applySigText_none_of_no_text _ _ htxF,
        applySigThought_none_of_no_thought _ _ hthF]
    constructor
    · rw [hconv]; exact happ
    · intro p hp
      rw [hconv, happ] at hp
      exact flatten_blockToParts_nosig bs p hp
  · intro hclaude c hc pa hpa
    unfold stripThoughtSignatures at hc
    rw [if_pos hclaude] at hc
    obtain ⟨c0, _, hc0⟩ := List.mem_map.mp hc
    rw [← hc0] at hpa
    simp only [] at hpa
    obtain ⟨p0, _, hp0⟩ := List.mem_map.mp hpa
    rw [← hp0]

/-- C6 witness at the signed thinking-then-text turn targeting a
Claude-family model. -/
theorem C6_signature_placement_witness :
    (firstSignature exBlocksC6).isEmpty = false
    ∧ ((hasQualifyingPart ((exBlocksC6.map blockToParts).flatten) = true →
         (convertClaudeContentToGeminiParts
             (ClaudeContent.blocks exBlocksC6)).countP
             (fun p => p.thoughtSignature == some (firstSignature exBlocksC6)) = 1
         ∧ ∀ p ∈ convertClaudeContentToGeminiParts
             (ClaudeContent.blocks exBlocksC6),
             p.thoughtSignature = none
             ∨ p.thoughtSignature = some (firstSignature exBlocksC6))
       ∧ (((exBlocksC6.map blockToParts).flatten).any
             (fun p => p.functionCall.isSome) = true →
           ∃ pre p suf, (exBlocksC6.map blockToParts).flatten = pre ++ p :: suf
             ∧ convertClaudeContentToGeminiParts (ClaudeContent.blocks exBlocksC6)
                 = pre ++ { p with
                     thoughtSignature := some (firstSignature exBlocksC6) } :: suf
             ∧ p.functionCall.isSome = true
             ∧ ∀ q ∈ pre, q.functionCall.isSome = false)
       ∧ (((exBlocksC6.map blockToParts).flatten).any
             (fun p => p.functionCall.isSome) = false →
          ((exBlocksC6.map blockToParts).flatten).any
             (fun p => partTextTruthy p && !p.thought) = true →
           ∃ pre p suf, (exBlocksC6.map blockToParts).flatten = pre ++ p :: suf
             ∧ convertClaudeContentToGeminiParts (ClaudeContent.blocks exBlocksC6)
                 = pre ++ { p with
                     thoughtSignature := some (firstSignature exBlocksC6) } :: suf
             ∧ (partTextTruthy p && !p.thought) = true
             ∧ ∀ q ∈ suf, (partTextTruthy q && !q.thought) = false)
       ∧ (((exBlocksC6.map blockToParts).flatten).any
             (fun p => p.functionCall.isSome) = false →
          ((exBlocksC6.map blockToParts).flatten).any
             (fun p => partTextTruthy p && !p.thought) = false →
          ((exBlocksC6.map blockToParts).flatten).any (fun p => p.thought) = true →
           ∃ pre p suf, (exBlocksC6.map blockToParts).flatten = pre ++ p :: suf
             ∧ convertClaudeContentToGeminiParts (ClaudeContent.blocks exBlocksC6)
                 = pre ++ { p with
                     thoughtSignature := some (firstSignature exBlocksC6) } :: suf
             ∧ p.thought = true
             ∧ ∀ q ∈ suf, q.thought = false)
       ∧ (hasQualifyingPart ((exBlocksC6.map blockToParts).flatten) = false →
           convertClaudeContentToGeminiParts (ClaudeContent.blocks exBlocksC6)
             = (exBlocksC6.map blockToParts).flatten
           ∧ ∀ p ∈ convertClaudeContentToGeminiParts
               (ClaudeContent.blocks exBlocksC6),
               p.thoughtSignature = none)
       ∧ (jsIncludes "claude-sonnet-4-5" "claude" = true →
          ∀ c ∈ stripThoughtSignatures "claude-sonnet-4-5"
             (convertClaudeMessagesToGeminiContents exMsgsC6 "claude-sonnet-4-5").1,
            ∀ pa ∈ c.parts, pa.thoughtSignature = none)) :=
  ⟨by decide,
   C6_signature_placement exBlocksC6 "claude-sonnet-4-5"
     (convertClaudeMessagesToGeminiContents exMsgsC6 "claude-sonnet-4-5").1
     (by decide)⟩

/-- C6 counterexample: `gemini-2.5-flash` is not a reasoning model even
by the widest predicate of the code, yet after translation one produced
part still carries `thoughtSignature` (the strip happens only for model
names containing `claude`). -/
theorem C6_counterexample :
    contentsEnableThinking "gemini-2.5-flash" = false
    ∧ jsIncludes "gemini-2.5-flash" "claude" = false
    ∧ ((stripThoughtSignatures "gemini-2.5-flash"
        (convertClaudeMessagesToGeminiContents exMsgsC6 "gemini-2.5-flash").1).map
        (fun c => c.parts.countP (fun p => p.thoughtSignature == some "S"))).sum
        = 1 :=
  ⟨by decide, by decide, by decide⟩

/-! ## C7 — stream-emitter block discipline -/

/-- Counting starts over a concatenation. -/
theorem startCount_append (a b : List SseEvent) (i : Nat) :
    startCount (a ++ b) i = startCount a i + startCount b i := by
  simp [startCount, List.countP_append]

/-- Counting stops over a concatenation. -/
theorem stopCount_append (a b : List SseEvent) (i : Nat) :
    stopCount (a ++ b) i = stopCount a i + stopCount b i := by
  simp [stopCount, List.countP_append]

/-- Start count of a one-event trace. -/
theorem startCount_single (e : SseEvent) (i : Nat) :
    startCount [e] i = if isBlockStartAt i e then 1 else 0 := by
  simp [startCount, List.countP_cons]

/-- Stop count of a one-event trace. -/
theorem stopCount_single (e : SseEvent) (i : Nat) :
    stopCount [e] i = if isBlockStopAt i e then 1 else 0 := by
  simp [stopCount, List.countP_cons]

/-- The blank emitter satisfies the invariant. -/
theorem emInv_init : EmInv initEmState [] := by
  refine ⟨?_, ?_, ?_, ?_, ?_, ?_⟩ <;>
    simp [startCount, stopCount, openCountAt, initEmState]

/-- `closeTextBlock` preserves the invariant. -/
theorem emInv_closeTextBlock (st : EmState) (tr : List SseEvent)
    (h : EmInv st tr) :
    EmInv (closeTextBlock st).1 (tr ++ (closeTextBlock st).2) := by
  obtain ⟨h1, h2, h3, h4, h5, h6⟩ := h
  cases htx : st.textBlockIndex with
  | none => simpa [closeTextBlock, htx] using ⟨h1, h2, h3, h4, h5, h6⟩
  | some j =>
    simp only [closeTextBlock, htx]
    have hth : st.thinkingBlockIndex ≠ some j := by
      intro hcontra
      exact h6 ⟨by simp [htx], by simp [hcontra]⟩
    refine ⟨?_, ?_, ?_, ?_, ?_, ?_⟩
    · intro i hi
      have hi' : st.nextIndex ≤ i := hi
      have hj := h4 j htx
      have hji : ¬(j = i) := by omega
      rw [startCount_append, stopCount_append, startCount_single, stopCount_single]
      simp [isBlockStartAt, isBlockStopAt, hji]
      exact h1 i hi'
    · intro i
      rw [startCount_append, startCount_single]
      simp [isBlockStartAt]
      exact h2 i
    · intro i
      have h3i := h3 i
      rw [startCount_append, stopCount_append, startCount_single, stopCount_single]
      by_cases hij : j = i
      · subst hij
        have hopen : openCountAt st j = 1 := by
          simp [openCountAt, htx, hth]
        have hopen' : openCountAt { st with textBlockIndex := none } j = 0 := by
          simp [openCountAt, hth]
        simp [isBlockStartAt, isBlockStopAt, hopen']
        omega
      · have hne : ¬(some j = some i) := by simp [hij]
        have hopen' : openCountAt { st with textBlockIndex := none } i
            = openCountAt st i := by
          simp [openCountAt, htx, hne]
        simp [isBlockStartAt, isBlockStopAt, hij, hopen']
        omega
    · intro i hcontra
      exact absurd hcontra (by simp)
    · intro i hthi
      exact h5 i hthi
    · intro hcontra
      exact absurd hcontra.1 (by simp)

/-- `closeThinkingBlock` preserves the invariant. -/
theorem emInv_closeThinkingBlock (st : EmState) (tr : List SseEvent)
    (h : EmInv st tr) :
    EmInv (closeThinkingBlock st).1 (tr ++ (closeThinkingBlock st).2) := by
  obtain ⟨h1, h2, h3, h4, h5, h6⟩ := h
  cases hth : st.thinkingBlockIndex with
  | none => simpa [closeThinkingBlock, hth] using ⟨h1, h2, h3, h4, h5, h6⟩
  | some j =>
    simp only [closeThinkingBlock, hth]
    have htx : st.textBlockIndex ≠ some j := by
      intro hcontra
      exact h6 ⟨by simp [hcontra], by simp [hth]⟩
    refine ⟨?_, ?_, ?_, ?_, ?_, ?_⟩
    · intro i hi
      have hi' : st.nextIndex ≤ i := hi
      have hj := h5 j hth
      have hji : ¬(j = i) := by omega
      rw [startCount_append, stopCount_append, startCount_single, stopCount_single]
      simp [isBlockStartAt, isBlockStopAt, hji]
      exact h1 i hi'
    · intro i
      rw [startCount_append, startCount_single]
      simp [isBlockStartAt]
      exact h2 i
    · intro i
      have h3i := h3 i
      rw [startCount_append, stopCount_append, startCount_single, stopCount_single]
      by_cases hij : j = i
      · subst hij
        have hopen : openCountAt st j = 1 := by
          simp [openCountAt, hth, htx]
        have hopen' : openCountAt { st with thinkingBlockIndex := none } j = 0 := by
          simp [openCountAt, htx]
        simp [isBlockStartAt, isBlockStopAt, hopen']
        omega
      · have hne : ¬(some j = some i) := by simp [hij]
        have hopen' : openCountAt { st with thinkingBlockIndex := none } i
            = openCountAt st i := by
          simp [openCountAt, hth, hne]
        simp [isBlockStartAt, isBlockStopAt, hij, hopen']
        omega
    · intro i htxi
      exact h4 i htxi
    · intro i hcontra
      exact absurd hcontra (by simp)
    · intro hcontra
      exact absurd hcontra.2 (by simp)

/-- Events that are neither starts nor stops, and state changes that
leave the three block-tracking fields alone, preserve the invariant. -/
theorem emInv_neutral (st st' : EmState) (tr evs : List SseEvent)
    (h : EmInv st tr)
    (hn : st'.nextIndex = st.nextIndex)
    (htx : st'.textBlockIndex = st.textBlockIndex)
    (hth : st'.thinkingBlockIndex = st.thinkingBlockIndex)
    (hevs : ∀ i, startCount evs i = 0 ∧ stopCount evs i = 0) :
    EmInv st' (tr ++ evs) := by
  obtain ⟨h1, h2, h3, h4, h5, h6⟩ := h
  have hopen : ∀ i, openCountAt st' i = openCountAt st i := by
    intro i
    simp [openCountAt, htx, hth]
  refine ⟨?_, ?_, ?_, ?_, ?_, ?_⟩
  · intro i hi
    rw [startCount_append, stopCount_append, (hevs i).1, (hevs i).2]
    have hi' : st.nextIndex ≤ i := by rw [← hn]; exact hi
    simpa using h1 i hi'
  · intro i
    rw [startCount_append, (hevs i).1]
    simpa using h2 i
  · intro i
    rw [startCount_append, stopCount_append, (hevs i).1, (hevs i).2, hopen i]
    simpa using h3 i
  · intro i hi
    rw [hn]
    exact h4 i (htx ▸ hi)
  · intro i hi
    rw [hn]
    exact h5 i (hth ▸ hi)
  · intro hcontra
    exact h6 ⟨htx ▸ hcontra.1, hth ▸ hcontra.2⟩

/-- `ensureTextBlock` preserves the invariant when no thinking block is
open. -/
theorem emInv_ensureTextBlock (st : EmState) (tr : List SseEvent)
    (h : EmInv st tr) (hth : st.thinkingBlockIndex = none) :
    EmInv (ensureTextBlock st).1 (tr ++ (ensureTextBlock st).2.2) := by
  obtain ⟨h1, h2, h3, h4, h5, h6⟩ := h
  cases htx : st.textBlockIndex with
  | some i => simpa [ensureTextBlock, htx] using ⟨h1, h2, h3, h4, h5, h6⟩
  | none =>
    simp only [ensureTextBlock, htx]
    refine ⟨?_, ?_, ?_, ?_, ?_, ?_⟩
    · intro i hi
      have hi' : st.nextIndex + 1 ≤ i := hi
      have hni : ¬(st.nextIndex = i) := by omega
      rw [startCount_append, stopCount_append, startCount_single, stopCount_single]
      simp [isBlockStartAt, isBlockStopAt, hni]
      exact h1 i (by omega)
    · intro i
      rw [startCount_append, startCount_single]
      by_cases hni : st.nextIndex = i
      · have hz := (h1 i (by omega)).1
        simp [isBlockStartAt, hni, hz]
      · simp [isBlockStartAt, hni]
        exact h2 i
    · intro i
      have h3i := h3 i
      rw [startCount_append, stopCount_append, startCount_single, stopCount_single]
      by_cases hni : st.nextIndex = i
      · subst hni
        have hz := h1 st.nextIndex (by omega)
        have hopen : openCountAt st st.nextIndex = 0 := by
          have : st.textBlockIndex ≠ some st.nextIndex := by simp [htx]
          simp [openCountAt, htx, hth]
        have hopen' : openCountAt
            { st with textBlockIndex := some st.nextIndex,
                      nextIndex := st.nextIndex + 1 } st.nextIndex = 1 := by
          simp [openCountAt, hth]
        simp [isBlockStartAt, isBlockStopAt, hopen', hz.1, hz.2]
      · have hopen' : openCountAt
            { st with textBlockIndex := some st.nextIndex,
                      nextIndex := st.nextIndex + 1 } i = openCountAt st i := by
          have hne : ¬(some st.nextIndex = some i) := by simp [hni]
          simp [openCountAt, htx, hth, hne]
        simp [isBlockStartAt, isBlockStopAt, hni, hopen']
        omega
    · intro i hi
      have he : st.nextIndex = i := by simpa using hi
      show i < st.nextIndex + 1
      omega
    · intro i hi
      have he : st.thinkingBlockIndex = some i := hi
      rw [hth] at he
      exact absurd he (by simp)
    · intro hcontra
      exact absurd hcontra.2 (by simp [hth])

/-- `ensureThinkingBlock` preserves the invariant when no text block is
open. -/
theorem emInv_ensureThinkingBlock (st : EmState) (tr : List SseEvent)
    (h : EmInv st tr) (htx : st.textBlockIndex = none) :
    EmInv (ensureThinkingBlock st).1 (tr ++ (ensureThinkingBlock st).2.2) := by
  obtain ⟨h1, h2, h3, h4, h5, h6⟩ := h
  cases hth : st.thinkingBlockIndex with
  | some i => simpa [ensureThinkingBlock, hth] using ⟨h1, h2, h3, h4, h5, h6⟩
  | none =>
    simp only [ensureThinkingBlock, hth]
    refine ⟨?_, ?_, ?_, ?_, ?_, ?_⟩
    · intro i hi
      have hi' : st.nextIndex + 1 ≤ i := hi
      have hni : ¬(st.nextIndex = i) := by omega
      rw [startCount_append, stopCount_append, startCount_single, stopCount_single]
      simp [isBlockStartAt, isBlockStopAt, hni]
      exact h1 i (by omega)
    · intro i
      rw [startCount_append, startCount_single]
      by_cases hni : st.nextIndex = i
      · have hz := (h1 i (by omega)).1
        simp [isBlockStartAt, hni, hz]
      · simp [isBlockStartAt, hni]
        exact h2 i
    · intro i
      have h3i := h3 i
      rw [startCount_append, stopCount_append, startCount_single, stopCount_single]
      by_cases hni : st.nextIndex = i
      · subst hni
        have hz := h1 st.nextIndex (by omega)
        have hopen' : openCountAt
            { st with thinkingBlockIndex := some st.nextIndex,
                      nextIndex := st.nextIndex + 1 } st.nextIndex = 1 := by
          simp [openCountAt, htx]
        simp [isBlockStartAt, isBlockStopAt, hopen', hz.1, hz.2]
      · have hopen' : openCountAt
            { st with thinkingBlockIndex := some st.nextIndex,
                      nextIndex := st.nextIndex + 1 } i = openCountAt st i := by
          have hne : ¬(some st.nextIndex = some i) := by simp [hni]
          simp [openCountAt, htx, hth, hne]
        simp [isBlockStartAt, isBlockStopAt, hni, hopen']
        omega
    · intro i hi
      have he : st.textBlockIndex = some i := hi
      rw [htx] at he
      exact absurd he (by simp)
    · intro i hi
      have he : st.nextIndex = i := by simpa using hi
      show i < st.nextIndex + 1
      omega
    · intro hcontra
      exact absurd hcontra.1 (by simp [htx])

/-- `closeTextBlock` structural facts. -/
theorem closeTextBlock_fields (st : EmState) :
    (closeTextBlock st).1.textBlockIndex = none
    ∧ (closeTextBlock st).1.thinkingBlockIndex = st.thinkingBlockIndex
    ∧ (closeTextBlock st).1.nextIndex = st.nextIndex
    ∧ (closeTextBlock st).1.finished = st.finished := by
  cases h : st.textBlockIndex <;> simp [closeTextBlock, h]

/-- `closeThinkingBlock` structural facts. -/
theorem closeThinkingBlock_fields (st : EmState) :
    (closeThinkingBlock st).1.thinkingBlockIndex = none
    ∧ (closeThinkingBlock st).1.textBlockIndex = st.textBlockIndex
    ∧ (closeThinkingBlock st).1.nextIndex = st.nextIndex
    ∧ (closeThinkingBlock st).1.finished = st.finished := by
  cases h : st.thinkingBlockIndex <;> simp [closeThinkingBlock, h]

/-- Start count of one tool-use triple. -/
theorem startCount_triple (i n : Nat) :
    startCount [SseEvent.blockStart n BlockType.toolUse,
      SseEvent.blockDelta n, SseEvent.blockStop n] i
      = if n = i then 1 else 0 := by
  by_cases h : n = i <;>
    simp [startCount, List.countP_cons, isBlockStartAt, h]

/-- Stop count of one tool-use triple. -/
theorem stopCount_triple (i n : Nat) :
    stopCount [SseEvent.blockStart n BlockType.toolUse,
      SseEvent.blockDelta n, SseEvent.blockStop n] i
      = if n = i then 1 else 0 := by
  by_cases h : n = i <;>
    simp [stopCount, List.countP_cons, isBlockStopAt, h]

/-- The tool-call loop preserves the invariant when both blocks are
closed, and keeps them closed. -/
theorem emInv_sendToolCallsGo :
    ∀ (calls : List ToolCallEv) (st : EmState) (tr : List SseEvent),
      EmInv st tr → st.textBlockIndex = none → st.thinkingBlockIndex = none →
      EmInv (sendToolCallsGo st calls).1 (tr ++ (sendToolCallsGo st calls).2)
      ∧ (sendToolCallsGo st calls).1.textBlockIndex = none
      ∧ (sendToolCallsGo st calls).1.thinkingBlockIndex = none := by
  intro calls
  induction calls with
  | nil =>
    intro st tr h htx hth
    simpa [sendToolCallsGo] using ⟨h, htx, hth⟩
  | cons call rest ih =>
    intro st tr h htx hth
    obtain ⟨h1, h2, h3, h4, h5, h6⟩ := h
    simp only [sendToolCallsGo]
    have hmid : EmInv
        { st with
          nextIndex := st.nextIndex + 1,
          totalOutputTokens := st.totalOutputTokens
            + estimateTokensFromText (call.argumentsJson.getD "\x7b\x7d") }
        (tr ++ [SseEvent.blockStart st.nextIndex BlockType.toolUse,
                SseEvent.blockDelta st.nextIndex,
                SseEvent.blockStop st.nextIndex]) := by
      refine ⟨?_, ?_, ?_, ?_, ?_, ?_⟩
      · intro i hi
        have hi' : st.nextIndex + 1 ≤ i := hi
        have hni : ¬(st.nextIndex = i) := by omega
        have hle : st.nextIndex ≤ i := by omega
        rw [startCount_append, stopCount_append, startCount_triple,
          stopCount_triple]
        have hz := h1 i hle
        simp [hni, hz.1, hz.2]
      · intro i
        rw [startCount_append, startCount_triple]
        by_cases hni : st.nextIndex = i
        · have hle : st.nextIndex ≤ i := by omega
          have hz := (h1 i hle).1
          simp [hni, hz]
        · have hz := h2 i
          simp [hni]
          omega
      · intro i
        have h3i := h3 i
        rw [startCount_append, stopCount_append, startCount_triple,
          stopCount_triple]
        have hopen : openCountAt st i = 0 := by
          simp [openCountAt, htx, hth]
        have hopen' : openCountAt
            { st with
              nextIndex := st.nextIndex + 1,
              totalOutputTokens := st.totalOutputTokens
                + estimateTokensFromText (call.argumentsJson.getD "\x7b\x7d") } i
            = 0 := by
          simp [openCountAt, htx, hth]
        rw [hopen']
        rw [hopen] at h3i
        by_cases hni : st.nextIndex = i
        · simp [hni]
          omega
        · simp [hni]
          omega
      · intro i hi
        exact absurd (show st.textBlockIndex = some i from hi) (by simp [htx])
      · intro i hi
        exact absurd (show st.thinkingBlockIndex = some i from hi) (by simp [hth])
      · intro hcontra
        exact absurd hcontra.1 (by simp [htx])
    have hrec := ih _ _ hmid (by simp [htx]) (by simp [hth])
    simpa [List.append_assoc] using hrec

/-- Every emitter method call preserves the invariant. -/
theorem emInv_emitCall (st : EmState) (tr : List SseEvent) (c : EmCall)
    (h : EmInv st tr) :
    EmInv (emitCall st c).1 (tr ++ (emitCall st c).2) := by
  cases c with
  | start =>
    have := emInv_neutral st st tr [SseEvent.messageStart] h rfl rfl rfl
      (fun i => by simp [startCount, stopCount, List.countP_cons,
        isBlockStartAt, isBlockStopAt])
    simpa [emitCall] using this
  | sendText text =>
    by_cases he : text.isEmpty
    · simpa [emitCall, he] using h
    · have hA := emInv_closeThinkingBlock st tr h
      have hB := emInv_ensureTextBlock _ _ hA (closeThinkingBlock_fields st).1
      have hC := emInv_neutral _
        ({ (ensureTextBlock (closeThinkingBlock st).1).1 with
           totalOutputTokens :=
             (ensureTextBlock (closeThinkingBlock st).1).1.totalOutputTokens
               + estimateTokensFromText text })
        _ [SseEvent.blockDelta (ensureTextBlock (closeThinkingBlock st).1).2.1]
        hB rfl rfl rfl
        (fun i => by simp [startCount, stopCount, List.countP_cons,
          isBlockStartAt, isBlockStopAt])
      simpa [emitCall, he, List.append_assoc] using hC
  | sendThinking thinking =>
    by_cases he : thinking.isEmpty
    · simpa [emitCall, he] using h
    · have hA := emInv_closeTextBlock st tr h
      have hB := emInv_ensureThinkingBlock _ _ hA (closeTextBlock_fields st).1
      have hC := emInv_neutral _
        ({ (ensureThinkingBlock (closeTextBlock st).1).1 with
           totalOutputTokens :=
             (ensureThinkingBlock (closeTextBlock st).1).1.totalOutputTokens
               + estimateTokensFromText thinking })
        _ [SseEvent.blockDelta (ensureThinkingBlock (closeTextBlock st).1).2.1]
        hB rfl rfl rfl
        (fun i => by simp [startCount, stopCount, List.countP_cons,
          isBlockStartAt, isBlockStopAt])
      simpa [emitCall, he, List.append_assoc] using hC
  | sendToolCalls calls =>
    by_cases he : calls.isEmpty
    · simpa [emitCall, he] using h
    · have hA := emInv_closeTextBlock st tr h
      have hB := emInv_closeThinkingBlock _ _ hA
      have hgo := emInv_sendToolCallsGo calls _ _ hB
        (by rw [(closeThinkingBlock_fields (closeTextBlock st).1).2.1]
            exact (closeTextBlock_fields st).1)
        (closeThinkingBlock_fields (closeTextBlock st).1).1
      simpa [emitCall, he, List.append_assoc] using hgo.1
  | finish =>
    by_cases hf : st.finished = true
    · simpa [emitCall, hf] using h
    · have h0 : EmInv { st with finished := true } tr := by
        have := emInv_neutral st { st with finished := true } tr [] h rfl rfl rfl
          (fun i => by simp [startCount, stopCount])
        simpa using this
      have hA := emInv_closeTextBlock { st with finished := true } tr h0
      have hB := emInv_closeThinkingBlock _ _ hA
      have hC := emInv_neutral _
        (closeThinkingBlock (closeTextBlock { st with finished := true }).1).1
        _ [SseEvent.messageDelta, SseEvent.messageStop]
        hB rfl rfl rfl
        (fun i => by simp [startCount, stopCount, List.countP_cons,
          isBlockStartAt, isBlockStopAt])
      simpa [emitCall, hf, List.append_assoc] using hC

/-- A run of emitter calls preserves the invariant. -/
theorem emInv_run : ∀ (cs : List EmCall) (st : EmState) (tr : List SseEvent),
    EmInv st tr → EmInv (runEmitter st cs).1 (tr ++ (runEmitter st cs).2) := by
  intro cs
  induction cs with
  | nil => intro st tr h; simpa [runEmitter] using h
  | cons c cs ih =>
    intro st tr h
    have h1 := emInv_emitCall st tr c h
    have h2 := ih _ _ h1
    simpa [runEmitter, List.append_assoc] using h2

/-- A non-tool-use event at the head does not affect tool contiguity. -/
theorem toolOk_cons_safe (e : SseEvent) (tr : List SseEvent)
    (he : ∀ i, e ≠ SseEvent.blockStart i BlockType.toolUse) :
    toolBlocksContiguous (e :: tr) = toolBlocksContiguous tr := by
  cases e with
  | messageStart => rfl
  | blockStart i bt =>
    cases bt with
    | text => rfl
    | thinking => rfl
    | toolUse => exact absurd rfl (he i)
  | blockDelta i => rfl
  | blockStop i => rfl
  | messageDelta => rfl
  | messageStop => rfl

/-- Tool contiguity is closed under concatenation (length-bounded form). -/
theorem toolOk_append_len : ∀ (n : Nat) (a b : List SseEvent), a.length ≤ n →
    toolBlocksContiguous a = true → toolBlocksContiguous b = true →
    toolBlocksContiguous (a ++ b) = true := by
  intro n
  induction n with
  | zero =>
    intro a b hlen ha hb
    have hnil : a = [] := List.eq_nil_of_length_eq_zero (Nat.le_zero.mp hlen)
    subst hnil
    simpa using hb
  | succ n ih =>
    intro a b hlen ha hb
    cases a with
    | nil => simpa using hb
    | cons e rest =>
      by_cases hsafe : ∀ i, e ≠ SseEvent.blockStart i BlockType.toolUse
      · rw [toolOk_cons_safe e rest hsafe] at ha
        rw [List.cons_append, toolOk_cons_safe e (rest ++ b) hsafe]
        exact ih rest b (by simp at hlen; omega) ha hb
      · push_neg at hsafe
        obtain ⟨i, hi⟩ := hsafe
        subst hi
        cases rest with
        | nil => simp [toolBlocksContiguous] at ha
        | cons e2 rest2 =>
          cases e2 with
          | blockDelta j =>
            cases rest2 with
            | nil => simp [toolBlocksContiguous] at ha
            | cons e3 rest3 =>
              cases e3 with
              | blockStop k =>
                simp only [toolBlocksContiguous, Bool.and_eq_true] at ha
                obtain ⟨⟨ha1, ha2⟩, ha3⟩ := ha
                simp only [List.cons_append, toolBlocksContiguous,
                  Bool.and_eq_true]
                exact ⟨⟨ha1, ha2⟩, ih rest3 b (by simp at hlen; omega) ha3 hb⟩
              | messageStart => simp [toolBlocksContiguous] at ha
              | blockStart j2 bt2 => simp [toolBlocksContiguous] at ha
              | blockDelta j2 => simp [toolBlocksContiguous] at ha
              | messageDelta => simp [toolBlocksContiguous] at ha
              | messageStop => simp [toolBlocksContiguous] at ha
          | messageStart => simp [toolBlocksContiguous] at ha
          | blockStart j bt => simp [toolBlocksContiguous] at ha
          | blockStop j => simp [toolBlocksContiguous] at ha
          | messageDelta => simp [toolBlocksContiguous] at ha
          | messageStop => simp [toolBlocksContiguous] at ha

/-- A trace with no tool-use starts is trivially tool-contiguous. -/
theorem toolOk_noToolStart : ∀ (tr : List SseEvent),
    (∀ e ∈ tr, ∀ i, e ≠ SseEvent.blockStart i BlockType.toolUse) →
    toolBlocksContiguous tr = true := by
  intro tr
  induction tr with
  | nil => intro h; rfl
  | cons e rest ih =>
    intro h
    rw [toolOk_cons_safe e rest (h e (by simp))]
    exact ih (fun e2 he2 i => h e2 (by simp [he2]) i)

/-- Prepending non-tool-use events preserves tool contiguity. -/
theorem toolOk_stops_prepend : ∀ (stops tail : List SseEvent),
    (∀ e ∈ stops, ∀ i, e ≠ SseEvent.blockStart i BlockType.toolUse) →
    toolBlocksContiguous tail = true →
    toolBlocksContiguous (stops ++ tail) = true := by
  intro stops
  induction stops with
  | nil => intro tail _ h; simpa using h
  | cons e rest ih =>
    intro tail hsafe h
    rw [List.cons_append, toolOk_cons_safe e _ (hsafe e (by simp))]
    exact ih tail (fun e2 he2 i => hsafe e2 (by simp [he2]) i) h

/-- The tool-call loop emits only complete contiguous triples. -/
theorem toolOk_sendToolCallsGo : ∀ (calls : List ToolCallEv) (st : EmState),
    toolBlocksContiguous (sendToolCallsGo st calls).2 = true := by
  intro calls
  induction calls with
  | nil => intro st; rfl
  | cons call rest ih =>
    intro st
    simp [sendToolCallsGo, toolBlocksContiguous, ih]

/-- `closeTextBlock` emits no tool-use start. -/
theorem closeTextBlock_events_safe (st : EmState) :
    ∀ e ∈ (closeTextBlock st).2, ∀ i,
      e ≠ SseEvent.blockStart i BlockType.toolUse := by
  cases h : st.textBlockIndex <;> simp [closeTextBlock, h]

/-- `closeThinkingBlock` emits no tool-use start. -/
theorem closeThinkingBlock_events_safe (st : EmState) :
    ∀ e ∈ (closeThinkingBlock st).2, ∀ i,
      e ≠ SseEvent.blockStart i BlockType.toolUse := by
  cases h : st.thinkingBlockIndex <;> simp [closeThinkingBlock, h]

/-- `ensureTextBlock` emits no tool-use start. -/
theorem ensureTextBlock_events_safe (st : EmState) :
    ∀ e ∈ (ensureTextBlock st).2.2, ∀ i,
      e ≠ SseEvent.blockStart i BlockType.toolUse := by
  cases h : st.textBlockIndex <;> simp [ensureTextBlock, h]

/-- `ensureThinkingBlock` emits no tool-use start. -/
theorem ensureThinkingBlock_events_safe (st : EmState) :
    ∀ e ∈ (ensureThinkingBlock st).2.2, ∀ i,
      e ≠ SseEvent.blockStart i BlockType.toolUse := by
  cases h : st.thinkingBlockIndex <;> simp [ensureThinkingBlock, h]

/-- Every single emitter call emits a tool-contiguous chunk. -/
theorem toolOk_emitCall (st : EmState) (c : EmCall) :
    toolBlocksContiguous (emitCall st c).2 = true := by
  cases c with
  | start => rfl
  | sendText t =>
    by_cases he : t.isEmpty
    · simp [emitCall, he, toolBlocksContiguous]
    · apply toolOk_noToolStart
      intro e hm i
      have hm' : e ∈ (closeThinkingBlock st).2
          ∨ e ∈ (ensureTextBlock (closeThinkingBlock st).1).2.2
          ∨ e = SseEvent.blockDelta
              (ensureTextBlock (closeThinkingBlock st).1).2.1 := by
        simpa [emitCall, he] using hm
      rcases hm' with h | h | h
      · exact closeThinkingBlock_events_safe st e h i
      · exact ensureTextBlock_events_safe _ e h i
      · subst h; simp
  | sendThinking t =>
    by_cases he : t.isEmpty
    · simp [emitCall, he, toolBlocksContiguous]
    · apply toolOk_noToolStart
      intro e hm i
      have hm' : e ∈ (closeTextBlock st).2
          ∨ e ∈ (ensureThinkingBlock (closeTextBlock st).1).2.2
          ∨ e = SseEvent.blockDelta
              (ensureThinkingBlock (closeTextBlock st).1).2.1 := by
        simpa [emitCall, he] using hm
      rcases hm' with h | h | h
      · exact closeTextBlock_events_safe st e h i
      · exact ensureThinkingBlock_events_safe _ e h i
      · subst h; simp
  | sendToolCalls calls =>
    by_cases he : calls.isEmpty
    · simp [emitCall, he, toolBlocksContiguous]
    · have hgo := toolOk_sendToolCallsGo calls
        (closeThinkingBlock (closeTextBlock st).1).1
      have hpre := toolOk_stops_prepend
        ((closeTextBlock st).2 ++ (closeThinkingBlock (closeTextBlock st).1).2)
        (sendToolCallsGo (closeThinkingBlock (closeTextBlock st).1).1 calls).2
        (by intro e hm i
            rcases List.mem_append.mp hm with h | h
            · exact closeTextBlock_events_safe st e h i
            · exact closeThinkingBlock_events_safe _ e h i)
        hgo
      simpa [emitCall, he, List.append_assoc] using hpre
  | finish =>
    by_cases hf : st.finished = true
    · simp [emitCall, hf, toolBlocksContiguous]
    · apply toolOk_noToolStart
      intro e hm i
      have hm' : e ∈ (closeTextBlock { st with finished := true }).2
          ∨ e ∈ (closeThinkingBlock
              (closeTextBlock { st with finished := true }).1).2
          ∨ e = SseEvent.messageDelta ∨ e = SseEvent.messageStop := by
        simpa [emitCall, hf] using hm
      rcases hm' with h | h | h | h
      · exact closeTextBlock_events_safe _ e h i
      · exact closeThinkingBlock_events_safe _ e h i
      · subst h; simp
      · subst h; simp

/-- The whole run trace is tool-contiguous. -/
theorem toolOk_run : ∀ (cs : List EmCall) (st : EmState),
    toolBlocksContiguous (runEmitter st cs).2 = true := by
  intro cs
  induction cs with
  | nil => intro st; rfl
  | cons c cs ih =>
    intro st
    have h1 := toolOk_emitCall st c
    have h2 := ih (emitCall st c).1
    have h3 := toolOk_append_len (emitCall st c).2.length (emitCall st c).2
      (runEmitter (emitCall st c).1 cs).2 le_rfl h1 h2
    simpa [runEmitter] using h3

/-- The tool-call loop never touches the `finished` flag. -/
theorem sendToolCallsGo_finished : ∀ (calls : List ToolCallEv) (st : EmState),
    (sendToolCallsGo st calls).1.finished = st.finished := by
  intro calls
  induction calls with
  | nil => intro st; rfl
  | cons call rest ih => intro st; simp [sendToolCallsGo, ih]

/-- No call other than `finish` changes the `finished` flag. -/
theorem emitCall_finished_of_send (st : EmState) (c : EmCall)
    (hc : c ≠ EmCall.finish) :
    (emitCall st c).1.finished = st.finished := by
  cases c with
  | start => rfl
  | sendText t =>
    by_cases he : t.isEmpty
    · simp [emitCall, he]
    · cases hth : st.thinkingBlockIndex <;>
        cases htx : st.textBlockIndex <;>
          simp [emitCall, he, closeThinkingBlock, ensureTextBlock, hth, htx]
  | sendThinking t =>
    by_cases he : t.isEmpty
    · simp [emitCall, he]
    · cases htx : st.textBlockIndex <;>
        cases hth : st.thinkingBlockIndex <;>
          simp [emitCall, he, closeTextBlock, ensureThinkingBlock, htx, hth]
  | sendToolCalls calls =>
    by_cases he : calls.isEmpty
    · simp [emitCall, he]
    · have hrw : (emitCall st (EmCall.sendToolCalls calls)).1
          = (sendToolCallsGo
              (closeThinkingBlock (closeTextBlock st).1).1 calls).1 := by
        simp [emitCall, he]
      rw [hrw, sendToolCallsGo_finished,
        (closeThinkingBlock_fields _).2.2.2, (closeTextBlock_fields _).2.2.2]
  | finish => exact absurd rfl hc

/-- A first `finish` leaves both blocks closed and the flag set. -/
theorem emitCall_finish_calm (st : EmState) (hf : st.finished = false) :
    (emitCall st EmCall.finish).1.textBlockIndex = none
    ∧ (emitCall st EmCall.finish).1.thinkingBlockIndex = none
    ∧ (emitCall st EmCall.finish).1.finished = true := by
  have hrw : (emitCall st EmCall.finish).1
      = (closeThinkingBlock (closeTextBlock { st with finished := true }).1).1 := by
    simp [emitCall, hf]
  rw [hrw]
  refine ⟨?_, (closeThinkingBlock_fields _).1, ?_⟩
  · rw [(closeThinkingBlock_fields _).2.1, (closeTextBlock_fields _).1]
  · rw [(closeThinkingBlock_fields _).2.2.2, (closeTextBlock_fields _).2.2.2]

/-- Non-send calls keep a closed-and-finished state closed and finished. -/
theorem emitCall_nonsend_calm (st : EmState) (c : EmCall)
    (hc : isSendCall c = false)
    (htx : st.textBlockIndex = none) (hth : st.thinkingBlockIndex = none)
    (hf : st.finished = true) :
    (emitCall st c).1.textBlockIndex = none
    ∧ (emitCall st c).1.thinkingBlockIndex = none
    ∧ (emitCall st c).1.finished = true := by
  cases c with
  | start => exact ⟨htx, hth, hf⟩
  | sendText t => simp [isSendCall] at hc
  | sendThinking t => simp [isSendCall] at hc
  | sendToolCalls calls => simp [isSendCall] at hc
  | finish =>
    simp only [emitCall, hf, if_pos]
    simp [htx, hth]

/-- A run of non-send calls keeps the state closed and finished. -/
theorem run_nonsend_calm : ∀ (cs : List EmCall) (st : EmState),
    cs.all (fun c => !isSendCall c) = true →
    st.textBlockIndex = none → st.thinkingBlockIndex = none →
    st.finished = true →
    (runEmitter st cs).1.textBlockIndex = none
    ∧ (runEmitter st cs).1.thinkingBlockIndex = none
    ∧ (runEmitter st cs).1.finished = true := by
  intro cs
  induction cs with
  | nil => intro st _ htx hth hf; exact ⟨htx, hth, hf⟩
  | cons c cs ih =>
    intro st hall htx hth hf
    have hc : isSendCall c = false := by
      have := (List.all_eq_true.mp hall) c (by simp)
      simpa using this
    have hcs : cs.all (fun c => !isSendCall c) = true := by
      rw [List.all_eq_true] at hall ⊢
      exact fun x hx => hall x (by simp [hx])
    have hcalm := emitCall_nonsend_calm st c hc htx hth hf
    have hrec := ih (emitCall st c).1 hcs hcalm.1 hcalm.2.1 hcalm.2.2
    simpa [runEmitter] using hrec

/-- After a well-formed sequence containing `finish`, both blocks are
closed and the emitter is finished. -/
theorem run_calm_after : ∀ (cs : List EmCall) (st : EmState),
    sendsBeforeFirstFinish cs = true → EmCall.finish ∈ cs →
    st.finished = false →
    (runEmitter st cs).1.textBlockIndex = none
    ∧ (runEmitter st cs).1.thinkingBlockIndex = none
    ∧ (runEmitter st cs).1.finished = true := by
  intro cs
  induction cs with
  | nil => intro st _ h2 _; simp at h2
  | cons c cs ih =>
    intro st h1 h2 hf
    cases c with
    | finish =>
      have hall : cs.all (fun c => !isSendCall c) = true := by
        simpa [sendsBeforeFirstFinish] using h1
      have hcalm := emitCall_finish_calm st hf
      have hrec := run_nonsend_calm cs (emitCall st EmCall.finish).1 hall
        hcalm.1 hcalm.2.1 hcalm.2.2
      simpa [runEmitter] using hrec
    | start =>
      have h1' : sendsBeforeFirstFinish cs = true := by
        simpa [sendsBeforeFirstFinish] using h1
      have h2' : EmCall.finish ∈ cs := by
        rcases List.mem_cons.mp h2 with h | h
        · exact absurd h (by simp)
        · exact h
      have hf' : (emitCall st EmCall.start).1.finished = false := by
        rw [emitCall_finished_of_send st _ (by simp)]; exact hf
      have hrec := ih (emitCall st EmCall.start).1 h1' h2' hf'
      simpa [runEmitter] using hrec
    | sendText t =>
      have h1' : sendsBeforeFirstFinish cs = true := by
        simpa [sendsBeforeFirstFinish] using h1
      have h2' : EmCall.finish ∈ cs := by
        rcases List.mem_cons.mp h2 with h | h
        · exact absurd h (by simp)
        · exact h
      have hf' : (emitCall st (EmCall.sendText t)).1.finished = false := by
        rw [emitCall_finished_of_send st _ (by simp)]; exact hf
      have hrec := ih (emitCall st (EmCall.sendText t)).1 h1' h2' hf'
      simpa [runEmitter] using hrec
    | sendThinking t =>
      have h1' : sendsBeforeFirstFinish cs = true := by
        simpa [sendsBeforeFirstFinish] using h1
      have h2' : EmCall.finish ∈ cs := by
        rcases List.mem_cons.mp h2 with h | h
        · exact absurd h (by simp)
        · exact h
      have hf' : (emitCall st (EmCall.sendThinking t)).1.finished = false := by
        rw [emitCall_finished_of_send st _ (by simp)]; exact hf
      have hrec := ih (emitCall st (EmCall.sendThinking t)).1 h1' h2' hf'
      simpa [runEmitter] using hrec
    | sendToolCalls calls =>
      have h1' : sendsBeforeFirstFinish cs = true := by
        simpa [sendsBeforeFirstFinish] using h1
      have h2' : EmCall.finish ∈ cs := by
        rcases List.mem_cons.mp h2 with h | h
        · exact absurd h (by simp)
        · exact h
      have hf' : (emitCall st (EmCall.sendToolCalls calls)).1.finished
          = false := by
        rw [emitCall_finished_of_send st _ (by simp)]; exact hf
      have hrec := ih (emitCall st (EmCall.sendToolCalls calls)).1 h1' h2' hf'
      simpa [runEmitter] using hrec

/-- Runs compose over list concatenation. -/
theorem runEmitter_append : ∀ (cs cs' : List EmCall) (st : EmState),
    runEmitter st (cs ++ cs')
      = ((runEmitter (runEmitter st cs).1 cs').1,
         (runEmitter st cs).2 ++ (runEmitter (runEmitter st cs).1 cs').2) := by
  intro cs
  induction cs with
  | nil => intro cs' st; simp [runEmitter]
  | cons c cs ih =>
    intro cs' st
    simp [runEmitter, ih, List.append_assoc]

/-- A second `finish` emits nothing and changes nothing. -/
theorem emitCall_finish_noop (st : EmState) (hf : st.finished = true) :
    emitCall st EmCall.finish = (st, []) := by
  simp [emitCall, hf]

/-- C7 (amended): for every call sequence in which all sends precede the
first `finish` and a `finish` occurs, the emitted trace matches every
`content_block_start` with exactly one `content_block_stop` at the same
index (and never starts an index twice), a text block and a thinking
block are never open simultaneously at any prefix of the run, tool-use
blocks are emitted as contiguous start/delta/stop triples overlapping
nothing, and a further `finish` appended at the end emits nothing. -/
theorem C7_block_discipline (cs : List EmCall)
    (h1 : sendsBeforeFirstFinish cs = true)
    (h2 : EmCall.finish ∈ cs) :
    (∀ i, startCount (runEmitter initEmState cs).2 i
        = stopCount (runEmitter initEmState cs).2 i
      ∧ startCount (runEmitter initEmState cs).2 i ≤ 1)
    ∧ (∀ cs1 cs2, cs = cs1 ++ cs2 →
        ¬((runEmitter initEmState cs1).1.textBlockIndex.isSome = true
          ∧ (runEmitter initEmState cs1).1.thinkingBlockIndex.isSome = true))
    ∧ toolBlocksContiguous (runEmitter initEmState cs).2 = true
    ∧ (runEmitter initEmState (cs ++ [EmCall.finish])).2
        = (runEmitter initEmState cs).2 := by
  have hinv := emInv_run cs initEmState [] emInv_init
  rw [List.nil_append] at hinv
  obtain ⟨ha, hb, hc, hd, he, hf⟩ := hinv
  have hcalm := run_calm_after cs initEmState h1 h2 rfl
  refine ⟨?_, ?_, toolOk_run cs initEmState, ?_⟩
  · intro i
    have h3 := hc i
    have hopen : openCountAt (runEmitter initEmState cs).1 i = 0 := by
      simp [openCountAt, hcalm.1, hcalm.2.1]
    rw [hopen] at h3
    exact ⟨by omega, hb i⟩
  · intro cs1 cs2 hsplit
    have hinv1 := emInv_run cs1 initEmState [] emInv_init
    exact hinv1.2.2.2.2.2
  · have hnoop := emitCall_finish_noop (runEmitter initEmState cs).1 hcalm.2.2
    rw [runEmitter_append]
    simp [runEmitter, hnoop]

/-- C7 witness: the scenario-6 call sequence (start, thinking, text, one
tool call, finish) satisfies the hypotheses and the block discipline. -/
theorem C7_block_discipline_witness :
    sendsBeforeFirstFinish exCallsC7 = true
    ∧ EmCall.finish ∈ exCallsC7
    ∧ toolBlocksContiguous (runEmitter initEmState exCallsC7).2 = true
    ∧ startCount (runEmitter initEmState exCallsC7).2 0
        = stopCount (runEmitter initEmState exCallsC7).2 0 :=
  ⟨by decide, by decide,
   (C7_block_discipline exCallsC7 (by decide) (by decide)).2.2.1,
   ((C7_block_discipline exCallsC7 (by decide) (by decide)).1 0).1⟩

/-- C7 counterexample to the unconditional claim: in the sequence
`finish; sendText "a"; finish` the text block opened after the first
`finish` is never closed (the second `finish` is a no-op), so the trace
has a `content_block_start` at index 0 with no matching stop. -/
theorem C7_counterexample :
    startCount (runEmitter initEmState exCallsC7Bad).2 0 = 1
    ∧ stopCount (runEmitter initEmState exCallsC7Bad).2 0 = 0 := by
  decide
